import Mathlib

/-!
Verification of the kcl2xrd core (KCL-schema to Crossplane-XRD converter)
against its natural-language specification.

The development shallowly embeds the two subsystems under scrutiny:

* the schema-to-definition mapper (`pkg/generator`:
  `GenerateXRDWithSchemasAndOptions`, `convertFieldToPropertySchemaWithSchemas`,
  `applyFieldValidationsAndDefaults`), and
* the schema scanner (`pkg/parser`: `ParseKCLFileWithSchemas`,
  `applyValidationAnnotations`, `splitPrinterColumns`,
  `resolveFormatExpression`).

Go strings are modelled as Lean `String` (a wrapper around `List Char`); every
Go standard-library string operation used by the code is re-implemented here
from its documented semantics (`goTrimSpace`, `goTrim`, `goAtoi`,
`goParseFloatOk`, ...), so that all definitions compute and concrete inputs
can be evaluated inside proofs.  Go's regular expressions are hand-compiled
to deterministic matching functions mirroring leftmost-match backtracking
semantics; each matcher's doc comment quotes the regex it compiles.
Recursive functions that Go runs without a termination guard (the inline
nested-schema expansion) take an explicit fuel argument and return `none`
when the fuel runs out; `(∀ fuel, f fuel x = none)` then witnesses true
non-termination of the source on `x`.

The external collaborators (file IO, the YAML encoder, the optional KCL
runtime evaluator `evaluateMetadataWithKCL`) are outside the modelled core,
as delimited by the specification; the YAML encoder's single relevant
property — `gopkg.in/yaml.v3` emits Go maps with keys sorted by a fixed total
order — is modelled by `canonProps`.
-/

namespace Kcl2Xrd

/-! ## Go string primitives, re-implemented over `List Char` -/

/-- Character test of Go `unicode.IsSpace`: the Unicode White_Space set. -/
def goIsSpace (c : Char) : Bool :=
  let n := c.toNat
  n = 9 || n = 10 || n = 11 || n = 12 || n = 13 || n = 32 || n = 133 || n = 160 ||
  n = 5760 || (8192 ≤ n && n ≤ 8202) || n = 8232 || n = 8233 || n = 8239 ||
  n = 8287 || n = 12288

/-- Drop leading characters satisfying `p`. -/
def trimLeftP (p : Char → Bool) : List Char → List Char
  | [] => []
  | c :: cs => if p c then trimLeftP p cs else c :: cs

/-- Drop leading and trailing characters satisfying `p` (Go `strings.TrimFunc`). -/
def trimBothP (p : Char → Bool) (l : List Char) : List Char :=
  (trimLeftP p (trimLeftP p l).reverse).reverse

/-- Go `strings.TrimSpace`. -/
def goTrimSpace (s : String) : String :=
  ⟨trimBothP goIsSpace s.data⟩

/-- Go `strings.Trim s cutset`: remove any leading/trailing characters that
occur in `cutset`. -/
def goTrim (s : String) (cutset : List Char) : String :=
  ⟨trimBothP (fun c => cutset.contains c) s.data⟩

/-- Whether `pre` is a prefix of `l` (character lists). -/
def listStartsWith : List Char → List Char → Bool
  | [], _ => true
  | _ :: _, [] => false
  | p :: ps, c :: cs => p == c && listStartsWith ps cs

/-- Go `strings.HasPrefix`. -/
def goStartsWith (s pre : String) : Bool :=
  listStartsWith pre.data s.data

/-- Go `strings.HasSuffix`. -/
def goEndsWith (s suf : String) : Bool :=
  listStartsWith suf.data.reverse s.data.reverse

/-- Go `strings.TrimPrefix`: cut `pre` from the start of `s` when present. -/
def goCutStart (s pre : String) : String :=
  if goStartsWith s pre then ⟨s.data.drop pre.data.length⟩ else s

/-- Go `strings.TrimSuffix`: cut `suf` from the end of `s` when present. -/
def goCutEnd (s suf : String) : String :=
  if goEndsWith s suf then ⟨s.data.take (s.data.length - suf.data.length)⟩ else s

/-- Index of the first occurrence of `pat` in the list, starting the count
at `i` (helper for Go `strings.Contains` / `strings.Index`). -/
def indexOfSubAux (pat : List Char) : List Char → Nat → Option Nat
  | [], i => if listStartsWith pat [] then some i else none
  | c :: cs, i =>
    if listStartsWith pat (c :: cs) then some i else indexOfSubAux pat cs (i + 1)

/-- Go `strings.Contains`. -/
def goContains (s sub : String) : Bool :=
  (indexOfSubAux sub.data s.data 0).isSome

/-- Replace the first occurrence of `old` (non-empty) by `new`
(Go `strings.Replace s old new 1`). -/
def replaceFirstL (s old new : List Char) : List Char :=
  match indexOfSubAux old s 0 with
  | none => s
  | some i => s.take i ++ new ++ s.drop (i + old.length)

/-- Go `strings.Replace s old new 1` for non-empty `old`. -/
def goReplaceFirst (s old new : String) : String :=
  ⟨replaceFirstL s.data old.data new.data⟩

/-- Split a character list at every occurrence of the separator character.
Mirrors Go `strings.Split` with a one-character separator: the empty input
yields one empty piece. -/
def splitCharL (sep : Char) : List Char → List (List Char)
  | [] => [[]]
  | c :: cs =>
    if c = sep then
      [] :: splitCharL sep cs
    else
      match splitCharL sep cs with
      | [] => [[c]]
      | p :: ps => (c :: p) :: ps

/-- Go `strings.Split s sep` for a one-character separator `sep`. -/
def goSplitChar (s : String) (sep : Char) : List String :=
  (splitCharL sep s.data).map (fun l => ⟨l⟩)

/-- Go `strings.SplitN s sep 2` for a one-character separator: split at the
first occurrence only. -/
def goSplitTwo (s : String) (sep : Char) : List String :=
  match splitCharL sep s.data with
  | [] => [s]
  | p :: ps =>
    if ps = [] then [⟨p⟩] else [⟨p⟩, ⟨(ps.map (fun l => l ++ [sep])).flatten.dropLast⟩]

/-- Go `strings.Join` with a given separator string. -/
def goJoin (sep : String) : List String → String
  | [] => ""
  | [x] => x
  | x :: xs => x ++ sep ++ goJoin sep xs

/-- ASCII lower-casing of one character; Go `strings.ToLower` restricted to
ASCII.  Schema and field names reaching this function are produced by the
scanner's `\w+` captures (ASCII word characters), for which this agrees with
Go's Unicode-aware `ToLower`. -/
def asciiLower (c : Char) : Char :=
  if 65 ≤ c.toNat ∧ c.toNat ≤ 90 then Char.ofNat (c.toNat + 32) else c

/-- Go `strings.ToLower` (ASCII fragment, see `asciiLower`). -/
def goToLower (s : String) : String :=
  ⟨s.data.map asciiLower⟩

/-- ASCII decimal digit test (Go regexp `\d`, `'0' <= c && c <= '9'`). -/
def isDigitChar (c : Char) : Bool :=
  48 ≤ c.toNat && c.toNat ≤ 57

/-- Go regexp `\w`: `[0-9A-Za-z_]`. -/
def isWordChar (c : Char) : Bool :=
  isDigitChar c || (65 ≤ c.toNat && c.toNat ≤ 90) ||
    (97 ≤ c.toNat && c.toNat ≤ 122) || c.toNat = 95

/-- Value of a list of decimal digit characters. -/
def digitsToNat (l : List Char) : Nat :=
  l.foldl (fun acc c => acc * 10 + (c.toNat - 48)) 0

/-- Go `strconv.Atoi`: optional sign, then decimal digits, no underscores;
fails (returns `none`) on malformed input and on 64-bit signed overflow
(Go reports `ErrRange` through a non-nil error, which every call site treats
the same as a syntax failure). -/
def goAtoi (s : String) : Option Int :=
  match s.data with
  | [] => none
  | c :: rest =>
    let neg := c = '-'
    let ds := if c = '+' ∨ c = '-' then rest else c :: rest
    if ds ≠ [] ∧ ds.all isDigitChar then
      let v : Int := if neg then -(digitsToNat ds : Int) else (digitsToNat ds : Int)
      if -(2 ^ 63) ≤ v ∧ v ≤ 2 ^ 63 - 1 then some v else none
    else none

/-! ## Go `strconv.ParseFloat` acceptance

`applyFieldValidationsAndDefaults` only inspects whether
`strconv.ParseFloat(s, 64)` returns a nil error, never the parsed value, so
the embedding models acceptance only.  ParseFloat fails exactly on (a) a
syntax error and (b) overflow to infinity (`ErrRange`); underflow is silent
in Go (`strconv/decimal.go` returns zero without the overflow flag).  The
overflow test is exact: a decimal value rounds (to nearest, ties to even) to
infinity iff it is at least `2^1024 - 2^970`, and the comparison is carried
out in exact integer arithmetic after narrowing with digit-count bounds. -/

/-- Case-insensitive character-list equality against a lowercase target,
byte-wise as in Go's `lower(c) = c | 0x20`. -/
def eqFold (l target : List Char) : Bool :=
  l.map (fun c => Char.ofNat (c.toNat ||| 32)) == target

/-- Go `strconv`'s `special`: accepts `inf`, `infinity` (optionally signed)
and unsigned `nan`, case-insensitively, consuming the entire string. -/
def specialFloatOk : List Char → Bool
  | [] => false
  | c :: rest =>
    if c = '+' ∨ c = '-' then
      eqFold rest "inf".data || eqFold rest "infinity".data
    else
      eqFold (c :: rest) "inf".data || eqFold (c :: rest) "infinity".data ||
        eqFold (c :: rest) "nan".data

/-- Hexadecimal digit test used by `readFloat` when the base is 16. -/
def isHexDigit (c : Char) : Bool :=
  isDigitChar c || (97 ≤ (c.toNat ||| 32) && (c.toNat ||| 32) ≤ 102)

/-- Go `strconv.underscoreOK`: underscores must separate digits (a base
prefix counts as a digit). -/
def underscoreOKLoop (hex : Bool) (saw : Char) : List Char → Bool
  | [] => saw ≠ '_'
  | c :: cs =>
    if isDigitChar c ∨ (hex ∧ 97 ≤ (c.toNat ||| 32) ∧ (c.toNat ||| 32) ≤ 102) then
      underscoreOKLoop hex '0' cs
    else if c = '_' then
      if saw ≠ '0' then false else underscoreOKLoop hex '_' cs
    else if saw = '_' then false
    else underscoreOKLoop hex '!' cs

/-- Go `strconv.underscoreOK` on a whole token. -/
def underscoreOK (l : List Char) : Bool :=
  let l1 := match l with
    | c :: cs => if c = '-' ∨ c = '+' then cs else l
    | [] => l
  match l1 with
  | c0 :: c1 :: cs =>
    if c0 = '0' ∧ (c1.toNat ||| 32) = 120 then underscoreOKLoop true '0' cs
    else underscoreOKLoop false '^' l1
  | _ => underscoreOKLoop false '^' l1

/-- Result of the syntactic part of Go `readFloat`. -/
structure ReadFloatR where
  hex : Bool
  digits : List Char
  frac : Nat
  exp : Int
  under : Bool
deriving DecidableEq

/-- Mantissa scan of `readFloat`: digits of the base, underscores, and at
most one decimal point.  Returns collected digits, count of digits after the
point, whether any digit and any underscore were seen, and the rest. -/
def scanMantissa (hexB : Bool) : List Char → Bool → List Char → Nat → Bool → Bool →
    (List Char × Nat × Bool × Bool × List Char)
  | [], _, digits, frac, sawDig, under => (digits, frac, sawDig, under, [])
  | c :: cs, sawDot, digits, frac, sawDig, under =>
    if c = '_' then
      scanMantissa hexB cs sawDot digits frac sawDig true
    else if c = '.' then
      if sawDot then (digits, frac, sawDig, under, c :: cs)
      else scanMantissa hexB cs true digits frac sawDig under
    else if isDigitChar c ∨ (hexB ∧ isHexDigit c) then
      scanMantissa hexB cs sawDot (digits ++ [c]) (if sawDot then frac + 1 else frac)
        true under
    else (digits, frac, sawDig, under, c :: cs)

/-- Exponent scan of `readFloat`: digits and underscores, accumulating with
Go's saturation (`if e < 10000`). -/
def scanExpDigits : List Char → Nat → Bool → (Nat × Bool × List Char)
  | [], e, under => (e, under, [])
  | c :: cs, e, under =>
    if isDigitChar c then
      scanExpDigits cs (if e < 10000 then e * 10 + (c.toNat - 48) else e) under
    else if c = '_' then scanExpDigits cs e true
    else (e, under, c :: cs)

/-- Syntactic part of Go `strconv.readFloat`, including the whole-string
consumption check done by `ParseFloat`.  Returns `none` on a syntax error. -/
def readFloatParse (l : List Char) : Option ReadFloatR :=
  let l1 := match l with
    | c :: cs => if c = '+' ∨ c = '-' then cs else l
    | [] => l
  let hexB : Bool := match l1 with
    | c0 :: c1 :: _ :: _ => c0 == '0' && (c1.toNat ||| 32) == 120
    | _ => false
  let body := if hexB then l1.drop 2 else l1
  match scanMantissa hexB body false [] 0 false false with
  | (digits, frac, sawDig, under, rest) =>
    if ¬ sawDig then none
    else
      let expChar : Nat := if hexB then 112 else 101
      match rest with
      | [] =>
        if hexB then none
        else some ⟨hexB, digits, frac, 0, under⟩
      | c :: cs =>
        if (c.toNat ||| 32) = expChar then
          let negE : Bool := match cs with
            | e0 :: _ => e0 == '-'
            | [] => false
          let cs1 := match cs with
            | e0 :: es => if e0 = '+' ∨ e0 = '-' then es else cs
            | [] => cs
          match cs1 with
          | [] => none
          | d0 :: _ =>
            if ¬ isDigitChar d0 then none
            else
              match scanExpDigits cs1 0 under with
              | (e, under2, rest2) =>
                if rest2 ≠ [] then none
                else some ⟨hexB, digits, frac, if negE then -(e : Int) else (e : Int), under2⟩
        else none

/-- The exact overflow threshold of binary64 round-to-nearest-ties-to-even:
values of magnitude at least `2^1024 - 2^970` round to infinity. -/
def floatOverflowThreshold : Nat := 2 ^ 1024 - 2 ^ 970

/-- Whether `m * base ^ e` (with `m` having `nd` significant base-`base`
digits, `m ≠ 0 → base^(nd-1) ≤ m < base^nd`) reaches the binary64 overflow
threshold.  Wide digit-count bounds decide the easy cases so that the exact
integer comparison only runs with small exponents. -/
def scaledReachesThreshold (m : Nat) (nd : Nat) (base : Nat) (e : Int) : Bool :=
  if m = 0 then false
  else if base = 10 then
    if e + nd ≥ 311 then true
    else if e + nd ≤ 308 then false
    else if 0 ≤ e then decide (m * 10 ^ e.toNat ≥ floatOverflowThreshold)
    else decide (m ≥ floatOverflowThreshold * 10 ^ (-e).toNat)
  else
    if e + 4 * nd ≥ 1028 then true
    else if e + 4 * nd ≤ 1023 then false
    else if 0 ≤ e then decide (m * 2 ^ e.toNat ≥ floatOverflowThreshold)
    else decide (m ≥ floatOverflowThreshold * 2 ^ (-e).toNat)

/-- Overflow test for a successfully scanned literal: the literal's exact
value reaches the binary64 rounding threshold for infinity. -/
def floatOverflow (r : ReadFloatR) : Bool :=
  let sig := trimLeftP (fun c => c = '0') r.digits
  let m :=
    if r.hex then
      sig.foldl (fun acc c =>
        acc * 16 + (if isDigitChar c then c.toNat - 48 else (c.toNat ||| 32) - 87)) 0
    else digitsToNat sig
  if r.hex then
    scaledReachesThreshold m sig.length 2 (r.exp - 4 * (r.frac : Int))
  else
    scaledReachesThreshold m sig.length 10 (r.exp - (r.frac : Int))

/-- Whether Go `strconv.ParseFloat(s, 64)` returns a nil error. -/
def goParseFloatOk (s : String) : Bool :=
  specialFloatOk s.data ||
    (match readFloatParse s.data with
     | none => false
     | some r => (!r.under || underscoreOK s.data) && !floatOverflow r)

/-! ## Data model (pkg/parser structures used by the generator) -/

/-- Go `parser.CELValidation`. -/
structure CELValidation where
  rule : String := ""
  message : String := ""
deriving DecidableEq

/-- Go `parser.Field`.  Absent attributes default to Go zero values. -/
structure Field where
  name : String := ""
  type : String := ""
  description : String := ""
  required : Bool := false
  default : String := ""
  pattern : String := ""
  minLength : Option Int := none
  maxLength : Option Int := none
  minimum : Option Int := none
  maximum : Option Int := none
  minItems : Option Int := none
  enum : List String := []
  immutable : Bool := false
  celValidations : List CELValidation := []
  preserveUnknownFields : Bool := false
  mapType : String := ""
  listType : String := ""
  listMapKeys : List String := []
deriving DecidableEq

/-- Go `parser.Schema`. -/
structure Schema where
  name : String := ""
  description : String := ""
  fields : List Field := []
  isXRD : Bool := false
deriving DecidableEq

/-! ## Generator data model (pkg/generator structures) -/

/-- Go `generator.K8sValidation`. -/
structure K8sValidation where
  rule : String := ""
  message : String := ""
deriving DecidableEq

/-- Value stored in `PropertySchema.Default` (Go `interface{}` fed to the
YAML encoder).  A successfully parsed float is represented by its literal;
the code never computes with the parsed value. -/
inductive GoYamlValue where
  | intVal (n : Int)
  | boolVal (b : Bool)
  | floatLit (s : String)
  | strVal (s : String)
deriving DecidableEq

/-- Scalar attributes of Go `generator.PropertySchema` (everything except
the two recursive fields `Properties` and `Items`). -/
structure PropAttrs where
  type : String := ""
  description : String := ""
  required : List String := []
  format : String := ""
  default : Option GoYamlValue := none
  pattern : String := ""
  minLength : Option Int := none
  maxLength : Option Int := none
  minimum : Option Int := none
  maximum : Option Int := none
  enum : List String := []
  validations : List K8sValidation := []
  immutable : Option Bool := none
  preserveUnknownFields : Option Bool := none
  mapType : String := ""
  listType : String := ""
  listMapKeys : List String := []
deriving DecidableEq

/-- Go `generator.PropertySchema`: the scalar attributes plus the recursive
`Properties` map (modelled as an association list in insertion order) and
the optional `Items` node. -/
inductive PropTree where
  | node (attrs : PropAttrs) (properties : List (String × PropTree))
      (items : Option PropTree)

/-- Scalar attributes of a property node. -/
def PropTree.attrs : PropTree → PropAttrs
  | .node a _ _ => a

/-- Children of a property node (`Properties`). -/
def PropTree.properties : PropTree → List (String × PropTree)
  | .node _ p _ => p

/-- Item node of an array property (`Items`). -/
def PropTree.items : PropTree → Option PropTree
  | .node _ _ i => i

/-- Go map assignment `m[k] = v` on the association-list model: replace the
value at an existing key, otherwise append. -/
def mapInsert {α : Type} (m : List (String × α)) (k : String) (v : α) :
    List (String × α) :=
  match m with
  | [] => [(k, v)]
  | (k0, v0) :: rest => if k0 = k then (k, v) :: rest else (k0, v0) :: mapInsert rest k v

/-- Go map lookup `m[k]` (with `nil` maps represented by `[]`). -/
def lookupAssoc {α : Type} (m : List (String × α)) (k : String) : Option α :=
  match m with
  | [] => none
  | (k0, v0) :: rest => if k0 = k then some v0 else lookupAssoc rest k

/-- Go `generator.PrinterColumn`. -/
structure PrinterColumn where
  name : String := ""
  type : String := ""
  jsonPath : String := ""
  description : String := ""
  priority : Int := 0
deriving DecidableEq

/-- Go `generator.XRDOptions`. -/
structure XRDOptions where
  group : String := ""
  version : String := ""
  withClaims : Bool := false
  claimKind : String := ""
  claimPlural : String := ""
  served : Bool := false
  referenceable : Bool := false
  categories : List String := []
  printerColumns : List PrinterColumn := []
deriving DecidableEq

/-- Go `generator.Names`. -/
structure Names where
  kind : String := ""
  plural : String := ""
deriving DecidableEq

/-- Go `generator.ClaimNames`. -/
structure ClaimNames where
  kind : String := ""
  plural : String := ""
deriving DecidableEq

/-- Go `generator.OpenAPIV3Schema`. -/
structure OpenAPIV3Schema where
  type : String := ""
  properties : List (String × PropTree) := []
  required : List String := []

/-- Go `generator.VersionSchema`. -/
structure VersionSchema where
  openAPIV3Schema : OpenAPIV3Schema

/-- Go `generator.Version`. -/
structure Version where
  name : String := ""
  served : Bool := false
  referenceable : Bool := false
  schema : VersionSchema
  additionalPrinterColumns : List PrinterColumn := []

/-- Go `generator.Metadata` (object metadata of the emitted document). -/
structure XRDMeta where
  name : String := ""
deriving DecidableEq

/-- Go `generator.XRDSpec`. -/
structure XRDSpec where
  group : String := ""
  names : Names := {}
  claimNames : Option ClaimNames := none
  categories : List String := []
  versions : List Version := []

/-- Go `generator.XRD` (the document handed to the YAML encoder). -/
structure XRD where
  apiVersion : String := ""
  kind : String := ""
  metadata : XRDMeta := {}
  spec : XRDSpec := {}

/-! ## The mapper (pkg/generator functions) -/

/-- Default-coercion block at the top of Go `applyFieldValidationsAndDefaults`
(`if field.Default != "" && field.Default != "Undefined" { ... switch schema.Type ... }`). -/
def coerceDefault (field : Field) (a : PropAttrs) : PropAttrs :=
  if field.default ≠ "" ∧ field.default ≠ "Undefined" then
    let dv := goTrim field.default ['"']
    match a.type with
    | "integer" =>
      { a with default := some (match goAtoi dv with
          | some n => GoYamlValue.intVal n
          | none => GoYamlValue.strVal dv) }
    | "boolean" =>
      if dv = "True" ∨ dv = "true" then { a with default := some (GoYamlValue.boolVal true) }
      else if dv = "False" ∨ dv = "false" then
        { a with default := some (GoYamlValue.boolVal false) }
      else a
    | "number" =>
      { a with default := some (if goParseFloatOk dv then GoYamlValue.floatLit dv
          else GoYamlValue.strVal dv) }
    | "string" => { a with default := some (GoYamlValue.strVal dv) }
    | _ => { a with default := some (GoYamlValue.strVal dv) }
  else a

/-- Go `applyFieldValidationsAndDefaults`: default-literal coercion keyed on
the already-resolved node type, then copying of validation attributes. -/
def applyFieldValidationsAndDefaults (field : Field) (t : PropTree) : PropTree :=
  let a := coerceDefault field t.attrs
  let a := if field.pattern ≠ "" then { a with pattern := field.pattern } else a
  let a := if field.minLength.isSome then { a with minLength := field.minLength } else a
  let a := if field.maxLength.isSome then { a with maxLength := field.maxLength } else a
  let a := if field.minimum.isSome then { a with minimum := field.minimum } else a
  let a := if field.maximum.isSome then { a with maximum := field.maximum } else a
  let a := if field.enum ≠ [] then { a with enum := field.enum } else a
  let a := if field.immutable then { a with immutable := some true } else a
  let a := if field.preserveUnknownFields then { a with preserveUnknownFields := some true }
    else a
  let a := if field.mapType ≠ "" then { a with mapType := field.mapType } else a
  let a := if field.listType ≠ "" then { a with listType := field.listType } else a
  let a := if field.listMapKeys ≠ [] then { a with listMapKeys := field.listMapKeys } else a
  let a := if field.celValidations ≠ [] then
      { a with validations := a.validations ++
          field.celValidations.map (fun c => K8sValidation.mk c.rule c.message) }
    else a
  PropTree.node a t.properties t.items

/-- Setting of `schema.Description` from the field, shared by every branch
of `convertFieldToPropertySchemaWithSchemas`. -/
def withFieldDescription (field : Field) (t : PropTree) : PropTree :=
  if field.description ≠ "" then
    PropTree.node { t.attrs with description := field.description } t.properties t.items
  else t

/-- The nested-schema expansion loop inside
`convertFieldToPropertySchemaWithSchemas`: convert every field of the
referenced schema, inserting into the `Properties` map and appending
required names in declaration order. -/
def convertNestedFields (convertF : Field → Option PropTree) (fields : List Field) :
    Option (List (String × PropTree) × List String) :=
  fields.foldlM
    (fun acc nf => (convertF nf).map (fun p =>
      (mapInsert acc.1 nf.name p, if nf.required then acc.2 ++ [nf.name] else acc.2)))
    ⟨[], []⟩

/-- Go `convertFieldToPropertySchemaWithSchemas`.  The Go function recurses
without any cycle guard; `fuel` bounds the recursion depth and `none` means
the bound was exhausted, so `(∀ fuel, … = none)` states that the source
recursion never terminates on that input. -/
def convertFieldToPropertySchemaWithSchemas (fuel : Nat) (field : Field)
    (schemas : List (String × Schema)) : Option PropTree :=
  match fuel with
  | 0 => none
  | fuel + 1 =>
    let base : Option PropTree :=
      if field.type = "str" then some (PropTree.node { type := "string" } [] none)
      else if field.type = "int" then some (PropTree.node { type := "integer" } [] none)
      else if field.type = "float" then some (PropTree.node { type := "number" } [] none)
      else if field.type = "bool" then some (PropTree.node { type := "boolean" } [] none)
      else if goStartsWith field.type "[" ∧ goEndsWith field.type "]" then
        let elementType := goCutEnd (goCutStart field.type "[") "]"
        if goTrimSpace elementType = "\x7bany:any\x7d" then
          some (PropTree.node { type := "array" } []
            (some (PropTree.node
              { type := "object"
                preserveUnknownFields := if field.preserveUnknownFields then some true else none }
              [] none)))
        else
          (convertFieldToPropertySchemaWithSchemas fuel { type := elementType } schemas).map
            (fun el => PropTree.node { type := "array" } [] (some el))
      else if goStartsWith field.type "\x7b" ∧ goContains field.type ":" then
        if goTrimSpace (goTrim field.type ['\x7b', '\x7d']) = "any:any" ∧
            field.preserveUnknownFields then
          some (PropTree.node { type := "object", preserveUnknownFields := some true } [] none)
        else some (PropTree.node { type := "object" } [] none)
      else
        match lookupAssoc schemas field.type with
        | some nested =>
          (convertNestedFields
              (fun nf => convertFieldToPropertySchemaWithSchemas fuel nf schemas)
              nested.fields).map
            (fun pr => PropTree.node { type := "object", required := pr.2 } pr.1 none)
        | none => some (PropTree.node { type := "object" } [] none)
    base.map (fun t => applyFieldValidationsAndDefaults field (withFieldDescription field t))

/-- Go `GenerateXRDWithSchemasAndOptions`, up to (but not including) the YAML
marshalling boundary: it assembles the `XRD` document value.  The only
failure of the Go function is the encoder's, outside the modelled core;
`none` here only signals exhausted conversion fuel. -/
def GenerateXRDWithSchemasAndOptions (fuel : Nat) (schema : Schema)
    (schemas : List (String × Schema)) (opts : XRDOptions) : Option XRD :=
  let plural := goToLower schema.name ++ "s"
  let resourceName := plural ++ "." ++ opts.group
  let claimNames : Option ClaimNames :=
    if opts.withClaims then
      let claimKind :=
        if opts.claimKind ≠ "" then opts.claimKind
        else if goStartsWith schema.name "X" then goCutStart schema.name "X"
        else schema.name
      let claimPlural :=
        if opts.claimPlural ≠ "" then opts.claimPlural else goToLower claimKind ++ "s"
      some ⟨claimKind, claimPlural⟩
    else none
  (convertNestedFields
      (fun f => convertFieldToPropertySchemaWithSchemas fuel f schemas)
      schema.fields).map
    (fun pr =>
      let parametersSchema := PropTree.node { type := "object", required := pr.2 } pr.1 none
      let specSchema := PropTree.node { type := "object", required := ["parameters"] }
        [("parameters", parametersSchema)] none
      { apiVersion := "apiextensions.crossplane.io/v1"
        kind := "CompositeResourceDefinition"
        metadata := ⟨resourceName⟩
        spec :=
          { group := opts.group
            names := ⟨schema.name, plural⟩
            claimNames := claimNames
            categories := opts.categories
            versions :=
              [{ name := opts.version
                 served := opts.served
                 referenceable := opts.referenceable
                 additionalPrinterColumns := opts.printerColumns
                 schema := ⟨{ type := "object"
                              properties := [("spec", specSchema)]
                              required := ["spec"] }⟩ }] } })

/-! ## Helper lemmas about the mapper -/

/-- The attribute-copying tail of `applyFieldValidationsAndDefaults` never
touches the `default` attribute: it is exactly what `coerceDefault` left. -/
theorem applyFVD_default (field : Field) (t : PropTree) :
    (applyFieldValidationsAndDefaults field t).attrs.default =
      (coerceDefault field t.attrs).default := by
  simp only [applyFieldValidationsAndDefaults, PropTree.attrs]
  simp [apply_ite PropAttrs.default]

/-- Setting the node description changes neither type nor default. -/
theorem withFieldDescription_attrs (field : Field) (t : PropTree) :
    (withFieldDescription field t).attrs.type = t.attrs.type ∧
    (withFieldDescription field t).attrs.default = t.attrs.default := by
  unfold withFieldDescription
  split <;> simp [PropTree.attrs]

/-- The `default` attribute produced by `coerceDefault` on a node whose type
is none of the scalar coercion targets: the trimmed literal as a string. -/
theorem coerceDefault_other (field : Field) (a : PropAttrs)
    (h1 : field.default ≠ "") (h2 : field.default ≠ "Undefined")
    (ht : a.type ≠ "integer") (ht2 : a.type ≠ "boolean") (ht3 : a.type ≠ "number")
    (ht4 : a.type ≠ "string") :
    (coerceDefault field a).default =
      some (GoYamlValue.strVal (goTrim field.default ['"'])) := by
  unfold coerceDefault
  rw [if_pos ⟨h1, h2⟩]
  split <;> simp_all

/-! ## Claim C1 -/

/-- Claim C1 (status: code_bug).  The claim states that with claim generation
enabled and no overrides, a root schema named "Bucket" and one named
"XBucket" both produce exposed kind "XBucket" and claim kind "Bucket" (the
unprefixed configured kind getting an X-prefixed exposed kind synthesized).
Evaluating the embedded generator shows the code never synthesizes a prefix
for the exposed kind: "Bucket" yields the pair (exposed "Bucket", claim
"Bucket"), while "XBucket" yields (exposed "XBucket", claim "Bucket"), so
the two runs do not produce the same pair and the exposed kind for "Bucket"
is not "XBucket" — contradicting the repository's own README, which documents
"XRD Kind: XPostgreSQLInstance (X-prefix added)" for an unprefixed schema. -/
theorem claim_C1_kind_derivation_evaluation :
    ((GenerateXRDWithSchemasAndOptions 1 { name := "Bucket" } []
        { group := "example.org", version := "v1alpha1", withClaims := true }).map
      (fun x => (x.spec.names.kind, x.spec.claimNames))) =
      some ("Bucket", some ⟨"Bucket", "buckets"⟩) ∧
    ((GenerateXRDWithSchemasAndOptions 1 { name := "XBucket" } []
        { group := "example.org", version := "v1alpha1", withClaims := true }).map
      (fun x => (x.spec.names.kind, x.spec.claimNames))) =
      some ("XBucket", some ⟨"Bucket", "buckets"⟩) ∧
    ("Bucket" : String) ≠ "XBucket" :=
  ⟨rfl, rfl, by decide⟩

/-! ## Claim C2 -/

/-- Claim C2 (status: code_bug).  The claim states that a field of type
`[{any:any}]` with the preserve-unknown-fields annotation converts to an
array node whose item node is an object without declared properties carrying
the `x-kubernetes-preserve-unknown-fields` marker, while the array node
itself does not carry the marker.  Evaluating the embedded converter shows
the item node is as claimed, but the array node also carries the marker
(`applyFieldValidationsAndDefaults` runs on the array node with the same
field and copies the flag), contradicting the repository's own test
`TestGenerateXRDWithItemsPreserveUnknownFields`, which requires the array
level not to carry it. -/
theorem claim_C2_array_item_marker_evaluation :
    ((convertFieldToPropertySchemaWithSchemas 2
        { type := "[\x7bany:any\x7d]", preserveUnknownFields := true } []).map
      (fun p => (p.attrs.type, p.attrs.preserveUnknownFields,
        p.items.map (fun it => (it.attrs.type, it.attrs.preserveUnknownFields,
          it.properties.length))))) =
      some ("array", some true, some ("object", some true, 0)) ∧
    (some true : Option Bool) ≠ none :=
  ⟨rfl, by decide⟩

/-! ## Claim C4 -/

/-- Claim C4 (status: code_bug).  The claim states that a field of the bare
type `any` converts to a node with no scalar type assigned at all, carrying
only the preserve-unknown-fields marker when annotated.  Evaluating the
embedded converter shows `any` falls through to the unknown-token fallback
and gets `type: "object"`, contradicting the repository's own test
`TestConvertFieldWithAnyType`, which requires the type to be empty. -/
theorem claim_C4_any_type_evaluation :
    ((convertFieldToPropertySchemaWithSchemas 1
        { type := "any", preserveUnknownFields := true } []).map
      (fun p => (p.attrs.type, p.attrs.preserveUnknownFields))) =
      some ("object", some true) ∧
    ("object" : String) ≠ "" :=
  ⟨rfl, by decide⟩

/-! ## Claim C10 -/

/-- Claim C10 (status: confirmed).  For every generated document — whatever
the root schema (including one with zero fields), schema table, options and
fuel — the top-level OpenAPI schema lists exactly "spec" as required, the
"spec" node exists, is an object, requires exactly "parameters", and carries
a "parameters" property. -/
theorem claim_C10_spec_parameters_envelope (fuel : Nat) (schema : Schema)
    (schemas : List (String × Schema)) (opts : XRDOptions) (xrd : XRD)
    (h : GenerateXRDWithSchemasAndOptions fuel schema schemas opts = some xrd) :
    xrd.spec.versions.length = 1 ∧
    (xrd.spec.versions.head?.map (fun v => v.schema.openAPIV3Schema.required)) =
      some ["spec"] ∧
    ((xrd.spec.versions.head?.bind
        (fun v => lookupAssoc v.schema.openAPIV3Schema.properties "spec")).map
      (fun sp => (sp.attrs.type, sp.attrs.required,
        (lookupAssoc sp.properties "parameters").isSome))) =
      some ("object", ["parameters"], true) := by
  cases hb : convertNestedFields
      (fun f => convertFieldToPropertySchemaWithSchemas fuel f schemas) schema.fields with
  | none => simp [GenerateXRDWithSchemasAndOptions, hb] at h
  | some pr =>
    simp only [GenerateXRDWithSchemasAndOptions, hb, Option.map_some] at h
    cases h
    refine ⟨rfl, rfl, ?_⟩
    simp [lookupAssoc, PropTree.attrs, PropTree.properties]

/-- Concrete document produced by the generator on a zero-field root schema,
used by the witness of claim C10. -/
def c10Doc : XRD :=
  { apiVersion := "apiextensions.crossplane.io/v1"
    kind := "CompositeResourceDefinition"
    metadata := ⟨"emptys.g"⟩
    spec :=
      { group := "g"
        names := ⟨"Empty", "emptys"⟩
        claimNames := none
        categories := []
        versions :=
          [{ name := ""
             served := false
             referenceable := false
             additionalPrinterColumns := []
             schema := ⟨{ type := "object"
                          properties :=
                            [("spec", PropTree.node
                              { type := "object", required := ["parameters"] }
                              [("parameters", PropTree.node
                                { type := "object", required := [] } [] none)] none)]
                          required := ["spec"] }⟩ }] } }

/-- Witness for claim C10 at a concrete zero-field schema. -/
theorem claim_C10_witness :
    GenerateXRDWithSchemasAndOptions 0 { name := "Empty" } [] { group := "g" } =
      some c10Doc ∧
    (c10Doc.spec.versions.length = 1 ∧
      (c10Doc.spec.versions.head?.map (fun v => v.schema.openAPIV3Schema.required)) =
        some ["spec"] ∧
      ((c10Doc.spec.versions.head?.bind
          (fun v => lookupAssoc v.schema.openAPIV3Schema.properties "spec")).map
        (fun sp => (sp.attrs.type, sp.attrs.required,
          (lookupAssoc sp.properties "parameters").isSome))) =
        some ("object", ["parameters"], true)) :=
  ⟨rfl, claim_C10_spec_parameters_envelope 0 { name := "Empty" } [] { group := "g" }
    c10Doc rfl⟩

/-! ## Claim C5 -/

/-- The default produced by `coerceDefault` depends only on the incoming
type and default attributes. -/
theorem coerceDefault_default_congr (field : Field) (a b : PropAttrs)
    (ht : a.type = b.type) (hd : a.default = b.default) :
    (coerceDefault field a).default = (coerceDefault field b).default := by
  unfold coerceDefault
  by_cases hcond : field.default ≠ "" ∧ field.default ≠ "Undefined"
  · rw [if_pos hcond, if_pos hcond, ht]
    split <;> simp_all [apply_ite PropAttrs.default]
  · rw [if_neg hcond, if_neg hcond, hd]

/-- Coercion outcome on an integer-typed node. -/
theorem coerceDefault_integer (field : Field) (a : PropAttrs)
    (h1 : field.default ≠ "") (h2 : field.default ≠ "Undefined")
    (ht : a.type = "integer") :
    (coerceDefault field a).default =
      some (match goAtoi (goTrim field.default ['"']) with
        | some n => GoYamlValue.intVal n
        | none => GoYamlValue.strVal (goTrim field.default ['"'])) := by
  unfold coerceDefault
  rw [if_pos ⟨h1, h2⟩]
  split <;> simp_all

/-- Coercion outcome on a boolean-typed node: exact-case recognition of the
four literals, otherwise the incoming default (left unset on fresh nodes). -/
theorem coerceDefault_boolean (field : Field) (a : PropAttrs)
    (h1 : field.default ≠ "") (h2 : field.default ≠ "Undefined")
    (ht : a.type = "boolean") :
    (coerceDefault field a).default =
      (let dv := goTrim field.default ['"']
       if dv = "True" ∨ dv = "true" then some (GoYamlValue.boolVal true)
       else if dv = "False" ∨ dv = "false" then some (GoYamlValue.boolVal false)
       else a.default) := by
  unfold coerceDefault
  rw [if_pos ⟨h1, h2⟩]
  split <;> simp_all
  split <;> simp_all [apply_ite PropAttrs.default]

/-- Coercion outcome on a number-typed node. -/
theorem coerceDefault_number (field : Field) (a : PropAttrs)
    (h1 : field.default ≠ "") (h2 : field.default ≠ "Undefined")
    (ht : a.type = "number") :
    (coerceDefault field a).default =
      some (if goParseFloatOk (goTrim field.default ['"'])
        then GoYamlValue.floatLit (goTrim field.default ['"'])
        else GoYamlValue.strVal (goTrim field.default ['"'])) := by
  unfold coerceDefault
  rw [if_pos ⟨h1, h2⟩]
  split <;> simp_all

/-- Coercion outcome on a string-typed node. -/
theorem coerceDefault_string (field : Field) (a : PropAttrs)
    (h1 : field.default ≠ "") (h2 : field.default ≠ "Undefined")
    (ht : a.type = "string") :
    (coerceDefault field a).default =
      some (GoYamlValue.strVal (goTrim field.default ['"'])) := by
  unfold coerceDefault
  rw [if_pos ⟨h1, h2⟩]
  split <;> simp_all

/-- Default attribute of a converted branch result: description setting and
the validation-copying tail leave it at what `coerceDefault` computed from
the branch node's own attributes. -/
theorem chain_default (field : Field) (a : PropAttrs)
    (props : List (String × PropTree)) (items : Option PropTree) :
    (applyFieldValidationsAndDefaults field
        (withFieldDescription field (PropTree.node a props items))).attrs.default =
      (coerceDefault field a).default := by
  rw [applyFVD_default]
  exact coerceDefault_default_congr field _ _
    (withFieldDescription_attrs field (PropTree.node a props items)).1
    (withFieldDescription_attrs field (PropTree.node a props items)).2

/-- Claim C5 counterexample (status: corrected).  The claim requires
case-insensitive true/false recognition with a fallback to the unquoted
literal string whenever coercion fails.  On a `bool` field with raw default
"TRUE" the code recognizes nothing (only the exact literals True/true and
False/false are checked) and drops the default entirely instead of falling
back to the string. -/
theorem claim_C5_counterexample :
    ((convertFieldToPropertySchemaWithSchemas 1
        { type := "bool", default := "TRUE" } []).map
      (fun p => (p.attrs.type, p.attrs.default))) = some ("boolean", none) ∧
    (some (("boolean" : String), (none : Option GoYamlValue)) ≠
      some ("boolean", some (GoYamlValue.strVal "TRUE"))) ∧
    (some (("boolean" : String), (none : Option GoYamlValue)) ≠
      some ("boolean", some (GoYamlValue.boolVal true))) :=
  ⟨rfl, by decide, by decide⟩

/-- Claim C5 as amended (status: corrected).  For every converted field with
a non-empty raw default other than the sentinel "Undefined", the literal is
stripped of surrounding double quotes and coerced by the field's resolved
scalar type: integer parse for `int` fields (fallback to the unquoted
string on failure), float parse for `float` fields (fallback on failure),
recognition of exactly "True"/"true"/"False"/"false" for `bool` fields with
the default dropped on any other literal, and the unquoted string for every
other type. -/
theorem claim_C5_default_coercion (fuel : Nat) (field : Field)
    (schemas : List (String × Schema)) (p : PropTree)
    (h1 : field.default ≠ "") (h2 : field.default ≠ "Undefined")
    (hc : convertFieldToPropertySchemaWithSchemas fuel field schemas = some p) :
    p.attrs.default =
      (let dv := goTrim field.default ['"']
       if field.type = "int" then
         some (match goAtoi dv with
           | some n => GoYamlValue.intVal n
           | none => GoYamlValue.strVal dv)
       else if field.type = "float" then
         some (if goParseFloatOk dv then GoYamlValue.floatLit dv
           else GoYamlValue.strVal dv)
       else if field.type = "bool" then
         (if dv = "True" ∨ dv = "true" then some (GoYamlValue.boolVal true)
          else if dv = "False" ∨ dv = "false" then some (GoYamlValue.boolVal false)
          else none)
       else some (GoYamlValue.strVal dv)) := by
  cases fuel with
  | zero => simp [convertFieldToPropertySchemaWithSchemas] at hc
  | succ n =>
    simp only [convertFieldToPropertySchemaWithSchemas] at hc
    by_cases hstr : field.type = "str"
    · rw [if_pos hstr, Option.map_some', Option.some.injEq] at hc
      subst hc
      simp only [hstr]
      rw [chain_default, coerceDefault_string field _ h1 h2 rfl]
      simp
    · rw [if_neg hstr] at hc
      by_cases hint : field.type = "int"
      · rw [if_pos hint, Option.map_some', Option.some.injEq] at hc
        subst hc
        simp only [hint]
        rw [chain_default, coerceDefault_integer field _ h1 h2 rfl]
        simp
      · rw [if_neg hint] at hc
        by_cases hfl : field.type = "float"
        · rw [if_pos hfl, Option.map_some', Option.some.injEq] at hc
          subst hc
          simp only [hfl]
          rw [chain_default, coerceDefault_number field _ h1 h2 rfl]
          simp
        · rw [if_neg hfl] at hc
          by_cases hbo : field.type = "bool"
          · rw [if_pos hbo, Option.map_some', Option.some.injEq] at hc
            subst hc
            simp only [hbo]
            rw [chain_default, coerceDefault_boolean field _ h1 h2 rfl]
            simp
          · rw [if_neg hbo] at hc
            simp only [if_neg hstr, if_neg hint, if_neg hfl, if_neg hbo]
            by_cases harr : goStartsWith field.type "[" ∧ goEndsWith field.type "]"
            · rw [if_pos harr] at hc
              by_cases hanyel : goTrimSpace (goCutEnd (goCutStart field.type "[") "]") =
                  "\x7bany:any\x7d"
              · rw [if_pos hanyel, Option.map_some', Option.some.injEq] at hc
                subst hc
                rw [chain_default, coerceDefault_other field _ h1 h2
                  (by simp) (by simp) (by simp) (by simp)]
              · rw [if_neg hanyel, Option.map_map] at hc
                cases hrec : convertFieldToPropertySchemaWithSchemas n
                    { type := goCutEnd (goCutStart field.type "[") "]" } schemas with
                | none => rw [hrec] at hc; simp at hc
                | some el =>
                  rw [hrec, Option.map_some', Option.some.injEq] at hc
                  subst hc
                  simp only [Function.comp]
                  rw [chain_default, coerceDefault_other field _ h1 h2
                    (by simp) (by simp) (by simp) (by simp)]
            · rw [if_neg harr] at hc
              by_cases hmap : goStartsWith field.type "\x7b" ∧ goContains field.type ":"
              · rw [if_pos hmap] at hc
                by_cases hany : goTrimSpace (goTrim field.type ['\x7b', '\x7d']) = "any:any" ∧
                    field.preserveUnknownFields
                · rw [if_pos hany, Option.map_some', Option.some.injEq] at hc
                  subst hc
                  rw [chain_default, coerceDefault_other field _ h1 h2
                    (by simp) (by simp) (by simp) (by simp)]
                · rw [if_neg hany, Option.map_some', Option.some.injEq] at hc
                  subst hc
                  rw [chain_default, coerceDefault_other field _ h1 h2
                    (by simp) (by simp) (by simp) (by simp)]
              · rw [if_neg hmap] at hc
                cases hlk : lookupAssoc schemas field.type with
                | none =>
                  rw [hlk] at hc
                  simp only [Option.map_some', Option.some.injEq] at hc
                  subst hc
                  rw [chain_default, coerceDefault_other field _ h1 h2
                    (by simp) (by simp) (by simp) (by simp)]
                | some nested =>
                  rw [hlk, Option.map_map] at hc
                  cases hnf : convertNestedFields
                      (fun nf => convertFieldToPropertySchemaWithSchemas n nf schemas)
                      nested.fields with
                  | none => rw [hnf] at hc; simp at hc
                  | some pr =>
                    rw [hnf, Option.map_some', Option.some.injEq] at hc
                    subst hc
                    simp only [Function.comp]
                    rw [chain_default, coerceDefault_other field _ h1 h2
                      (by simp) (by simp) (by simp) (by simp)]

/-- Witness for claim C5 at a concrete integer field with a quoted numeric
default. -/
theorem claim_C5_witness :
    (({ type := "int", default := "\"42\"" } : Field).default ≠ "") ∧
    (({ type := "int", default := "\"42\"" } : Field).default ≠ "Undefined") ∧
    (((convertFieldToPropertySchemaWithSchemas 1
        { type := "int", default := "\"42\"" } [] ).get rfl).attrs.default =
      some (GoYamlValue.intVal 42)) := by
  refine ⟨by decide, by decide, ?_⟩
  have h := claim_C5_default_coercion 1 { type := "int", default := "\"42\"" } []
    ((convertFieldToPropertySchemaWithSchemas 1
      { type := "int", default := "\"42\"" } []).get rfl)
    (by decide) (by decide) rfl
  rw [h]
  rfl

/-! ## Claim C3 -/

/-- Schema table with a two-schema reference cycle: A has a field of type B
and B has a field of type A. -/
def cycleTable : List (String × Schema) :=
  [("A", { name := "A", fields := [{ name := "f", type := "B" }] }),
   ("B", { name := "B", fields := [{ name := "g", type := "A" }] })]

/-- Claim C3 (status: code_bug).  The claim states that the recursive inline
expansion terminates on every schema table, a revisited name being guarded.
The code has no guard: on the cyclic table above, conversion of a field
typed A (or B) exhausts any recursion-depth fuel — for every fuel the
embedding returns `none`, i.e. the source recursion never terminates. -/
theorem claim_C3_cycle_divergence :
    ∀ (fuel : Nat) (field : Field), field.type = "A" ∨ field.type = "B" →
      convertFieldToPropertySchemaWithSchemas fuel field cycleTable = none := by
  intro fuel
  induction fuel with
  | zero => intro field _; rfl
  | succ n ih =>
    intro field hf
    rcases hf with h | h
    · have hB := ih { name := "f", type := "B" } (Or.inr rfl)
      simp only [convertFieldToPropertySchemaWithSchemas, h]
      rw [if_neg (by decide), if_neg (by decide), if_neg (by decide), if_neg (by decide),
        if_neg (by decide), if_neg (by decide)]
      have hlk : lookupAssoc cycleTable "A" =
          some { name := "A", fields := [{ name := "f", type := "B" }] } := rfl
      rw [hlk]
      simp [convertNestedFields, hB]
    · have hA := ih { name := "g", type := "A" } (Or.inl rfl)
      simp only [convertFieldToPropertySchemaWithSchemas, h]
      rw [if_neg (by decide), if_neg (by decide), if_neg (by decide), if_neg (by decide),
        if_neg (by decide), if_neg (by decide)]
      have hlk : lookupAssoc cycleTable "B" =
          some { name := "B", fields := [{ name := "g", type := "A" }] } := rfl
      rw [hlk]
      simp [convertNestedFields, hA]

/-- Witness for claim C3 at a concrete field of type A and fuel 5. -/
theorem claim_C3_witness :
    (({ type := "A" } : Field).type = "A" ∨ ({ type := "A" } : Field).type = "B") ∧
    convertFieldToPropertySchemaWithSchemas 5 { type := "A" } cycleTable = none :=
  ⟨Or.inl rfl, claim_C3_cycle_divergence 5 { type := "A" } (Or.inl rfl)⟩

/-! ## Claim C9: determinism of generation

The generator itself is a pure function of (root schema, schema table,
options): its field loops run over Go slices in declaration order.  The only
place Go map iteration order could reach the output is the YAML encoder,
and `gopkg.in/yaml.v3` emits map keys sorted by a fixed total order.
`canonProps` models that canonicalization for one property map; the
invariance theorem shows it erases any iteration order. -/

/-- Boolean lexicographic order on character lists (by code point). -/
def charListLeb : List Char → List Char → Bool
  | [], _ => true
  | _ :: _, [] => false
  | a :: as, b :: bs =>
    if a.toNat < b.toNat then true
    else if b.toNat < a.toNat then false
    else charListLeb as bs

/-- Totality of `charListLeb`. -/
theorem charListLeb_total : ∀ a b, charListLeb a b = true ∨ charListLeb b a = true := by
  intro a
  induction a with
  | nil => intro b; exact Or.inl rfl
  | cons x xs ih =>
    intro b
    cases b with
    | nil => exact Or.inr rfl
    | cons y ys =>
      by_cases h1 : x.toNat < y.toNat
      · exact Or.inl (by simp [charListLeb, h1])
      · by_cases h2 : y.toNat < x.toNat
        · exact Or.inr (by simp [charListLeb, h2])
        · rcases ih ys with h | h
          · exact Or.inl (by simp [charListLeb, h1, h2, h])
          · exact Or.inr (by simp [charListLeb, h1, h2, h])

/-- Transitivity of `charListLeb`. -/
theorem charListLeb_trans :
    ∀ a b c, charListLeb a b = true → charListLeb b c = true → charListLeb a c = true := by
  intro a
  induction a with
  | nil => intro b c _ _; rfl
  | cons x xs ih =>
    intro b c hab hbc
    cases b with
    | nil => simp [charListLeb] at hab
    | cons y ys =>
      cases c with
      | nil => simp [charListLeb] at hbc
      | cons z zs =>
        simp only [charListLeb] at hab hbc ⊢
        by_cases hxy : x.toNat < y.toNat
        · by_cases hyz : y.toNat < z.toNat
          · have : x.toNat < z.toNat := Nat.lt_trans hxy hyz
            simp [this]
          · simp only [hyz, if_neg] at hbc
            by_cases hzy : z.toNat < y.toNat
            · simp [hzy] at hbc
            · have hyzeq : y.toNat = z.toNat := by omega
              have : x.toNat < z.toNat := hyzeq ▸ hxy
              simp [this]
        · simp only [hxy, if_neg] at hab
          by_cases hyx : y.toNat < x.toNat
          · simp [hyx] at hab
          · have hxyeq : x.toNat = y.toNat := by omega
            by_cases hyz : y.toNat < z.toNat
            · have : x.toNat < z.toNat := hxyeq ▸ hyz
              simp [this]
            · by_cases hzy : z.toNat < y.toNat
              · simp [hyz, hzy] at hbc
              · have hyzeq : y.toNat = z.toNat :=
                  by omega
                have hxz : ¬ x.toNat < z.toNat := by omega
                have hzx : ¬ z.toNat < x.toNat := by omega
                simp only [hxz, hzx, if_neg, if_false]
                simp only [hxy, hyx, if_neg, if_false] at hab
                simp only [hyz, hzy, if_neg, if_false] at hbc
                simp [ih ys zs hab hbc]

/-- Antisymmetry of `charListLeb`. -/
theorem charListLeb_antisymm :
    ∀ a b, charListLeb a b = true → charListLeb b a = true → a = b := by
  intro a
  induction a with
  | nil =>
    intro b _ hba
    cases b with
    | nil => rfl
    | cons y ys => simp [charListLeb] at hba
  | cons x xs ih =>
    intro b hab hba
    cases b with
    | nil => simp [charListLeb] at hab
    | cons y ys =>
      simp only [charListLeb] at hab hba
      by_cases hxy : x.toNat < y.toNat
      · have : ¬ y.toNat < x.toNat := by omega
        simp [hxy, this] at hba
      · by_cases hyx : y.toNat < x.toNat
        · simp [hxy, hyx] at hab
        · have heq : x.toNat = y.toNat := by omega
          have hxych : x = y := by
            have h1 : Char.ofNat x.toNat = Char.ofNat y.toNat := congrArg Char.ofNat heq
            rwa [Char.ofNat_toNat, Char.ofNat_toNat] at h1
          simp only [hxy, hyx, if_neg, if_false] at hab hba
          rw [hxych, ih ys hab hba]

/-- Key order on property-map entries: lexicographic on the key string. -/
def keyLe (p q : String × PropTree) : Prop :=
  charListLeb p.1.data q.1.data = true

instance : DecidableRel keyLe := fun _ _ =>
  inferInstanceAs (Decidable (_ = true))

instance : IsTotal (String × PropTree) keyLe :=
  ⟨fun p q => charListLeb_total p.1.data q.1.data⟩

instance : IsTrans (String × PropTree) keyLe :=
  ⟨fun p q r => charListLeb_trans p.1.data q.1.data r.1.data⟩

/-- Strict key order: key-≤ together with distinct keys. -/
def keyLt (p q : String × PropTree) : Prop :=
  keyLe p q ∧ p.1 ≠ q.1

instance : IsAntisymm (String × PropTree) keyLt :=
  ⟨fun p q h1 h2 => absurd
    (show p.1 = q.1 from
      congrArg String.mk (charListLeb_antisymm p.1.data q.1.data h1.1 h2.1))
    h1.2⟩

/-- Model of the YAML encoder's rendering order for one Go property map:
entries sorted by key (the encoder of `gopkg.in/yaml.v3` sorts map keys
with a fixed total order, so the emitted bytes depend only on the map's
contents, not on Go's randomized iteration order). -/
def canonProps (l : List (String × PropTree)) : List (String × PropTree) :=
  List.insertionSort keyLe l

/-- A key-sorted list with pairwise-distinct keys is sorted by the strict
key order. -/
theorem sorted_keyLt_of_sorted_keyLe (l : List (String × PropTree))
    (hs : List.Sorted keyLe l) (hnd : (l.map Prod.fst).Nodup) :
    List.Sorted keyLt l := by
  have hnd' : List.Pairwise (fun p q : String × PropTree => p.1 ≠ q.1) l :=
    List.pairwise_map.mp hnd
  exact (hs.and hnd')

/-- Required-name accumulation of the parameter-bag loop, generalized over
the accumulator. -/
theorem convertNestedFields_foldAux (convertF : Field → Option PropTree) :
    ∀ (fields : List Field) (acc res : List (String × PropTree) × List String),
      fields.foldlM
        (fun acc nf => (convertF nf).map (fun p =>
          (mapInsert acc.1 nf.name p, if nf.required then acc.2 ++ [nf.name] else acc.2)))
        acc = some res →
      res.2 = acc.2 ++ (fields.filter (fun f => f.required)).map (fun f => f.name) := by
  intro fields
  induction fields with
  | nil =>
    intro acc res h
    simp only [List.foldlM_nil] at h
    cases h
    simp
  | cons x xs ih =>
    intro acc res h
    rw [List.foldlM_cons] at h
    cases hx : convertF x with
    | none => rw [hx] at h; simp at h
    | some p =>
      rw [hx] at h
      simp only [Option.map_some'] at h
      have hrest := ih _ res h
      by_cases hr : x.required
      · simp [hr] at hrest
        simp [hr, hrest]
      · simp [hr] at hrest
        simp [hr, hrest]

/-- The required-name list built by `convertNestedFields` is the
declaration-order filter of the required fields. -/
theorem convertNestedFields_required (convertF : Field → Option PropTree)
    (fields : List Field) (pr : List (String × PropTree) × List String)
    (h : convertNestedFields convertF fields = some pr) :
    pr.2 = (fields.filter (fun f => f.required)).map (fun f => f.name) := by
  have := convertNestedFields_foldAux convertF fields ⟨[], []⟩ pr h
  simpa using this

/-- Claim C9 (status: confirmed).  Generation is deterministic: (a) the YAML
encoder's key-sorted rendering of a property map is invariant under any
permutation of the map's entries (so Go's randomized map iteration order is
unobservable in the output), and (b) the required-name list of the parameter
bag is exactly the declaration-order filter of the root schema's required
fields. -/
theorem claim_C9_determinism :
    (∀ (l₁ l₂ : List (String × PropTree)), l₁.Perm l₂ → (l₁.map Prod.fst).Nodup →
      canonProps l₁ = canonProps l₂) ∧
    (∀ (fuel : Nat) (schema : Schema) (schemas : List (String × Schema))
        (opts : XRDOptions) (xrd : XRD),
      GenerateXRDWithSchemasAndOptions fuel schema schemas opts = some xrd →
      ((xrd.spec.versions.head?.bind
          (fun v => lookupAssoc v.schema.openAPIV3Schema.properties "spec")).bind
        (fun sp => (lookupAssoc sp.properties "parameters").map
          (fun ps => ps.attrs.required))) =
        some ((schema.fields.filter (fun f => f.required)).map (fun f => f.name))) := by
  constructor
  · intro l₁ l₂ hp hnd
    have hnd₂ : (l₂.map Prod.fst).Nodup := (hp.map Prod.fst).nodup_iff.mp hnd
    have hperm : (canonProps l₁).Perm (canonProps l₂) :=
      (List.perm_insertionSort keyLe l₁).trans (hp.trans (List.perm_insertionSort keyLe l₂).symm)
    have hs₁ : List.Sorted keyLt (canonProps l₁) :=
      sorted_keyLt_of_sorted_keyLe _ (List.sorted_insertionSort keyLe l₁)
        (((List.perm_insertionSort keyLe l₁).map Prod.fst).nodup_iff.mpr hnd)
    have hs₂ : List.Sorted keyLt (canonProps l₂) :=
      sorted_keyLt_of_sorted_keyLe _ (List.sorted_insertionSort keyLe l₂)
        (((List.perm_insertionSort keyLe l₂).map Prod.fst).nodup_iff.mpr hnd₂)
    exact List.eq_of_perm_of_sorted hperm hs₁ hs₂
  · intro fuel schema schemas opts xrd h
    cases hb : convertNestedFields
        (fun f => convertFieldToPropertySchemaWithSchemas fuel f schemas) schema.fields with
    | none => simp [GenerateXRDWithSchemasAndOptions, hb] at h
    | some pr =>
      simp only [GenerateXRDWithSchemasAndOptions, hb, Option.map_some'] at h
      cases h
      have hreq : pr.2 = (schema.fields.filter (fun f => f.required)).map (fun f => f.name) :=
        convertNestedFields_required _ schema.fields pr hb
      simp [lookupAssoc, PropTree.attrs, PropTree.properties, hreq]

/-- Witness for claim C9: part (a) at two orderings of a two-entry property
map, part (b) at a one-field root schema. -/
theorem claim_C9_witness :
    (([("b", PropTree.node {} [] none), ("a", PropTree.node {} [] none)].Perm
        [("a", PropTree.node {} [] none), ("b", PropTree.node {} [] none)]) ∧
      canonProps [("b", PropTree.node {} [] none), ("a", PropTree.node {} [] none)] =
        canonProps [("a", PropTree.node {} [] none), ("b", PropTree.node {} [] none)]) ∧
    (((((GenerateXRDWithSchemasAndOptions 1
            { name := "S", fields := [{ name := "x", type := "str", required := true }] }
            [] { group := "g" }).get rfl).spec.versions.head?.bind
          (fun v => lookupAssoc v.schema.openAPIV3Schema.properties "spec")).bind
        (fun sp => (lookupAssoc sp.properties "parameters").map
          (fun ps => ps.attrs.required))) = some ["x"]) := by
  constructor
  · refine ⟨List.Perm.swap _ _ _, ?_⟩
    exact claim_C9_determinism.1 _ _ (List.Perm.swap _ _ _) (by decide)
  · have h := claim_C9_determinism.2 1
      { name := "S", fields := [{ name := "x", type := "str", required := true }] }
      [] { group := "g" }
      ((GenerateXRDWithSchemasAndOptions 1
        { name := "S", fields := [{ name := "x", type := "str", required := true }] }
        [] { group := "g" }).get rfl) rfl
    rw [h]
    rfl

/-! ## The scanner (pkg/parser)

The scanner's regexes are hand-compiled to deterministic matchers below.
Go's regexp engine guarantees Perl-style leftmost-first submatch semantics,
which for these patterns (literal heads, greedy classes disjoint from their
successors, and lazy captures closed by a definite delimiter) reduce to the
deterministic scans implemented here; each matcher's doc comment quotes its
regex. -/

/-- Go RE2 `\s`: the Perl whitespace class `[\t\n\f\r ]`. -/
def isRegexSpace (c : Char) : Bool :=
  c = '\t' || c = '\n' || c = '\x0c' || c = '\r' || c = ' '

/-- Lazy capture for `(.*?)['"]\s*$`: the shortest content whose next
character is a quote followed only by whitespace to the end of the line. -/
def lazyQuotedEnd (acc : List Char) : List Char → Option String
  | [] => none
  | c :: cs =>
    if (c = '"' ∨ c = '\'') ∧ cs.all isRegexSpace then some ⟨acc⟩
    else lazyQuotedEnd (acc ++ [c]) cs

/-- Lazy capture for `(.*?)\]\s*$`. -/
def lazyBracketEnd (acc : List Char) : List Char → Option String
  | [] => none
  | c :: cs =>
    if c = ']' ∧ cs.all isRegexSpace then some ⟨acc⟩
    else lazyBracketEnd (acc ++ [c]) cs

/-- Compile `^\s*NAME\s*=\s*` and return the rest of the line, or `none`. -/
def matchAssignHead (varName : String) (line : String) : Option (List Char) :=
  let l := trimLeftP isRegexSpace line.data
  if listStartsWith varName.data l then
    let l := trimLeftP isRegexSpace (l.drop varName.data.length)
    match l with
    | '=' :: l2 => some (trimLeftP isRegexSpace l2)
    | _ => none
  else none

/-- Compile `^\s*NAME\s*=\s*['"](.*?)['"]\s*$` (the shape of `xrKindRegex`,
`xrVersionRegex` and `groupRegex`). -/
def matchQuotedAssign (varName : String) (line : String) : Option String :=
  match matchAssignHead varName line with
  | some (q :: l) => if q = '"' ∨ q = '\'' then lazyQuotedEnd [] l else none
  | _ => none

/-- Compile `^\s*NAME\s*=\s*\[(.*?)\]\s*$` (the shape of `categoriesRegex`
and `printerColumnsRegex`). -/
def matchBracketAssign (varName : String) (line : String) : Option String :=
  match matchAssignHead varName line with
  | some ('[' :: l) => lazyBracketEnd [] l
  | _ => none

/-- Compile `^\s*NAME\s*=\s*(true|false|True|False)\s*$` (the shape of
`servedRegex` and `referenceableRegex`). -/
def matchBoolAssign (varName : String) (line : String) : Option String :=
  match matchAssignHead varName line with
  | some l =>
    if listStartsWith "true".data l ∧ (l.drop 4).all isRegexSpace then some "true"
    else if listStartsWith "false".data l ∧ (l.drop 5).all isRegexSpace then some "false"
    else if listStartsWith "True".data l ∧ (l.drop 4).all isRegexSpace then some "True"
    else if listStartsWith "False".data l ∧ (l.drop 5).all isRegexSpace then some "False"
    else none
  | none => none

/-- Compile `groupExprRegex` = `^\s*__xrd_group\s*=\s*(.+)$`: matched iff
anything at all follows the equals sign. -/
def matchGroupExprB (line : String) : Bool :=
  match matchAssignHead "__xrd_group" line with
  | some l => decide (l ≠ []) || !(trimLeftP isRegexSpace line.data).all isRegexSpace
  | none => false

/-- Compile `varAssignRegex` = `^\s*(_\w+)\s*=\s*['"](.*?)['"]\s*$`. -/
def matchVarAssign (line : String) : Option (String × String) :=
  let l := trimLeftP isRegexSpace line.data
  match l with
  | '_' :: l1 =>
    let w := l1.takeWhile isWordChar
    if w = [] then none
    else
      let l2 := trimLeftP isRegexSpace (l1.drop w.length)
      match l2 with
      | '=' :: l3 =>
        match trimLeftP isRegexSpace l3 with
        | q :: l4 =>
          if q = '"' ∨ q = '\'' then
            (lazyQuotedEnd [] l4).map (fun v => (⟨'_' :: w⟩, v))
          else none
        | [] => none
      | _ => none
  | _ => none

/-- Compile `schemaRegex` = `^\s*schema\s+(\w+)\s*:?\s*$`. -/
def matchSchemaHeader (line : String) : Option String :=
  let l := trimLeftP isRegexSpace line.data
  if listStartsWith "schema".data l then
    let l1 := l.drop 6
    match l1 with
    | c :: _ =>
      if isRegexSpace c then
        let l2 := trimLeftP isRegexSpace l1
        let name := l2.takeWhile isWordChar
        if name = [] then none
        else
          let l3 := trimLeftP isRegexSpace (l2.drop name.length)
          let l4 := match l3 with
            | ':' :: r => r
            | _ => l3
          if l4.all isRegexSpace then some ⟨name⟩ else none
      else none
    | [] => none
  else none

/-- Default part of `fieldRegex`: compile `\s*=\s*(.+)` against the text
following the lazily captured type (Perl backtracking makes the capture the
remainder with leading whitespace removed, or a single space if only
whitespace follows the equals sign). -/
def ftdDefault (tail : List Char) : Option String :=
  match trimLeftP isRegexSpace tail with
  | '=' :: u =>
    if u = [] then none
    else
      match trimLeftP isRegexSpace u with
      | [] => some " "
      | v => some ⟨v⟩
  | _ => none

/-- Lazy scan for `(.+?)(?:\s*=\s*(.+))?\s*$` over the text after the colon
of a field line: grow the type capture until either a default part or an
all-whitespace tail follows. -/
def ftdScan (acc : List Char) : List Char → Option (String × String)
  | [] => none
  | c :: cs =>
    let acc2 := acc ++ [c]
    match ftdDefault cs with
    | some d => some (⟨acc2⟩, d)
    | none =>
      if cs.all isRegexSpace then some (⟨acc2⟩, "")
      else ftdScan acc2 cs

/-- Type-and-default part of `fieldRegex` (after the colon):
`\s*(.+?)(?:\s*=\s*(.+))?\s*$`. -/
def fieldTypeDefault (rest : List Char) : Option (String × String) :=
  let sp := (rest.takeWhile isRegexSpace).length
  let t := rest.drop sp
  if t = [] then
    if 1 ≤ sp then some (" ", "") else none
  else ftdScan [] t

/-- Result of `fieldRegex` = `^\s*(\w+)\s*(\?)?:\s*(.+?)(?:\s*=\s*(.+))?\s*$`. -/
structure FieldMatch where
  name : String
  optMark : Bool
  rawType : String
  rawDefault : String
deriving DecidableEq

/-- Compile `fieldRegex`. -/
def matchFieldLine (line : String) : Option FieldMatch :=
  let l := trimLeftP isRegexSpace line.data
  let name := l.takeWhile isWordChar
  if name = [] then none
  else
    let l2 := trimLeftP isRegexSpace (l.drop name.length)
    let pair : Bool × List Char := match l2 with
      | '?' :: rest => (true, rest)
      | _ => (false, l2)
    match pair.2 with
    | ':' :: rest =>
      (fieldTypeDefault rest).map (fun td => ⟨⟨name⟩, pair.1, td.1, td.2⟩)
    | _ => none

/-! ### Annotation matchers (unanchored, leftmost occurrence) -/

/-- Leftmost-position search: try the position matcher at every suffix. -/
def searchMatch {α : Type} (f : List Char → Option α) : List Char → Option α
  | [] => f []
  | c :: cs =>
    match f (c :: cs) with
    | some r => some r
    | none => searchMatch f cs

/-- Lazy capture for `(.*?)['"]\s*\)`: shortest content whose next character
is a quote followed by optional whitespace and a closing parenthesis. -/
def lazyQuoteParen (acc : List Char) : List Char → Option (String × List Char)
  | [] => none
  | c :: cs =>
    if c = '"' ∨ c = '\'' then
      match trimLeftP isRegexSpace cs with
      | ')' :: r => some (⟨acc⟩, r)
      | _ => lazyQuoteParen (acc ++ [c]) cs
    else lazyQuoteParen (acc ++ [c]) cs

/-- Lazy capture for `(.*?)\]\s*\)`. -/
def lazyBracketParen (acc : List Char) : List Char → Option String
  | [] => none
  | c :: cs =>
    if c = ']' then
      match trimLeftP isRegexSpace cs with
      | ')' :: _ => some ⟨acc⟩
      | _ => lazyBracketParen (acc ++ [c]) cs
    else lazyBracketParen (acc ++ [c]) cs

/-- Position matcher for `@DIR\s*\(\s*['"](.*?)['"]\s*\)` (the shape of
`patternRegex`, `mapTypeRegex`, `listTypeRegex`). -/
def annStringAt (dir : String) (l : List Char) : Option String :=
  if listStartsWith ("@" ++ dir).data l then
    match trimLeftP isRegexSpace (l.drop ("@" ++ dir).data.length) with
    | '(' :: r =>
      match trimLeftP isRegexSpace r with
      | q :: r2 =>
        if q = '"' ∨ q = '\'' then (lazyQuoteParen [] r2).map Prod.fst else none
      | [] => none
    | _ => none
  else none

/-- Position matcher for `@DIR\s*\(\s*(\d+)\s*\)` (the shape of
`minLengthRegex` … `minItemsRegex`). -/
def annNatAt (dir : String) (l : List Char) : Option String :=
  if listStartsWith ("@" ++ dir).data l then
    match trimLeftP isRegexSpace (l.drop ("@" ++ dir).data.length) with
    | '(' :: r =>
      let r2 := trimLeftP isRegexSpace r
      let ds := r2.takeWhile isDigitChar
      if ds = [] then none
      else
        match trimLeftP isRegexSpace (r2.drop ds.length) with
        | ')' :: _ => some ⟨ds⟩
        | _ => none
    | _ => none
  else none

/-- Position matcher for `@DIR\s*\(\s*\[(.*?)\]\s*\)` (the shape of
`enumRegex` and `listMapKeysRegex`). -/
def annListAt (dir : String) (l : List Char) : Option String :=
  if listStartsWith ("@" ++ dir).data l then
    match trimLeftP isRegexSpace (l.drop ("@" ++ dir).data.length) with
    | '(' :: r =>
      match trimLeftP isRegexSpace r with
      | '[' :: r2 => lazyBracketParen [] r2
      | _ => none
    | _ => none
  else none

/-- Tail of `celValidationRegex` after the closing quote of the rule:
`\s*(?:,\s*['"](.*?)['"]\s*)?\)` — optional message group tried first. -/
def validateTail (cs : List Char) : Option (Option String) :=
  let cs1 := trimLeftP isRegexSpace cs
  match cs1 with
  | ',' :: rest =>
    (match trimLeftP isRegexSpace rest with
     | q :: rest2 =>
       if q = '"' ∨ q = '\'' then (lazyQuoteParen [] rest2).map (fun m => some m.1)
       else none
     | [] => none)
  | ')' :: _ => some none
  | _ => none

/-- Lazy rule capture of `celValidationRegex`: grow until a closing quote
whose tail matches `validateTail`. -/
def lazyValidateRule (acc : List Char) : List Char → Option (String × Option String)
  | [] => none
  | c :: cs =>
    if c = '"' ∨ c = '\'' then
      match validateTail cs with
      | some msg => some (⟨acc⟩, msg)
      | none => lazyValidateRule (acc ++ [c]) cs
    else lazyValidateRule (acc ++ [c]) cs

/-- Position matcher for `celValidationRegex` =
`@validate\s*\(\s*['"](.*?)['"]\s*(?:,\s*['"](.*?)['"]\s*)?\)`. -/
def annValidateAt (l : List Char) : Option (String × Option String) :=
  if listStartsWith "@validate".data l then
    match trimLeftP isRegexSpace (l.drop 9) with
    | '(' :: r =>
      match trimLeftP isRegexSpace r with
      | q :: r2 =>
        if q = '"' ∨ q = '\'' then lazyValidateRule [] r2 else none
      | [] => none
    | _ => none
  else none

/-- Cleanup applied by the parser to each element of a split list argument:
`TrimSpace` then `Trim` of both quote characters. -/
def cleanListElem (v : String) : String :=
  goTrim (goTrimSpace v) ['"', '\'']

/-- Go `applyValidationAnnotations` for one buffered annotation line: run
every directive matcher against the line in source order. -/
def applyOneAnnotation (field : Field) (ann : String) : Field :=
  let l := ann.data
  let field := match searchMatch (annStringAt "pattern") l with
    | some v => { field with pattern := v }
    | none => field
  let field := match (searchMatch (annNatAt "minLength") l).bind goAtoi with
    | some n => { field with minLength := some n }
    | none => field
  let field := match (searchMatch (annNatAt "maxLength") l).bind goAtoi with
    | some n => { field with maxLength := some n }
    | none => field
  let field := match (searchMatch (annNatAt "minimum") l).bind goAtoi with
    | some n => { field with minimum := some n }
    | none => field
  let field := match (searchMatch (annNatAt "maximum") l).bind goAtoi with
    | some n => { field with maximum := some n }
    | none => field
  let field := match (searchMatch (annNatAt "minItems") l).bind goAtoi with
    | some n => { field with minItems := some n }
    | none => field
  let field := match searchMatch (annListAt "enum") l with
    | some content =>
      { field with enum := (goSplitChar content ',').map cleanListElem }
    | none => field
  let field := if goContains ann "@immutable" then { field with immutable := true } else field
  let field := match searchMatch annValidateAt l with
    | some (rule, msg) =>
      { field with celValidations := field.celValidations ++
          [⟨rule, match msg with | some m => m | none => ""⟩] }
    | none => field
  let field := if goContains ann "@preserveUnknownFields" then
      { field with preserveUnknownFields := true }
    else field
  let field := match searchMatch (annStringAt "mapType") l with
    | some v => { field with mapType := v }
    | none => field
  let field := match searchMatch (annStringAt "listType") l with
    | some v => { field with listType := v }
    | none => field
  let field := match searchMatch (annListAt "listMapKeys") l with
    | some content =>
      { field with listMapKeys := (goSplitChar content ',').map cleanListElem }
    | none => field
  field

/-- Go `applyValidationAnnotations` over the buffered annotation lines. -/
def applyValidationAnnotations (field : Field) (annotations : List String) : Field :=
  annotations.foldl applyOneAnnotation field

/-! ### splitPrinterColumns -/

/-- The lookbehind escape check `i == 0 || s[i-1] != '\\'` of
`splitPrinterColumns` (byte lookbehind, coinciding with the previous
character on the scanner's single-byte inputs). -/
def notEscaped (prev : Option Char) : Bool :=
  match prev with
  | none => true
  | some p => p != '\\'

/-- Loop body of Go `splitPrinterColumns`: a character scanner that tracks
quote state (with the lookbehind escape check) and splits at top-level
commas, trimming and unquoting each piece and dropping empty ones. -/
def splitPrinterColumnsLoop : List Char → Option Char → Bool → Char → List Char →
    List String → List String
  | [], _, _, _, current, acc =>
    let trimmed := goTrim (goTrimSpace ⟨current⟩) ['"', '\'']
    if trimmed ≠ "" then acc ++ [trimmed] else acc
  | ch :: rest, prev, inQuote, quoteChar, current, acc =>
    if (ch = '"' ∨ ch = '\'') ∧ notEscaped prev = true then
      if inQuote then
        if ch = quoteChar then
          splitPrinterColumnsLoop rest (some ch) false (Char.ofNat 0) current acc
        else splitPrinterColumnsLoop rest (some ch) inQuote quoteChar current acc
      else splitPrinterColumnsLoop rest (some ch) true ch current acc
    else if ch = ',' ∧ inQuote = false then
      let trimmed := goTrim (goTrimSpace ⟨current⟩) ['"', '\'']
      splitPrinterColumnsLoop rest (some ch) inQuote quoteChar []
        (if trimmed ≠ "" then acc ++ [trimmed] else acc)
    else splitPrinterColumnsLoop rest (some ch) inQuote quoteChar (current ++ [ch]) acc

/-- Go `splitPrinterColumns`. -/
def splitPrinterColumns (s : String) : List String :=
  splitPrinterColumnsLoop s.data none false (Char.ofNat 0) [] []

/-! ### resolveFormatExpression -/

/-- Lazy args capture for `(.*?)\)\s*$`. -/
def lazyArgsEnd (acc : List Char) : List Char → Option String
  | [] => none
  | c :: cs =>
    if c = ')' ∧ cs.all isRegexSpace then some ⟨acc⟩
    else lazyArgsEnd (acc ++ [c]) cs

/-- Lazy format-string capture of `formatRegex`: grow until a closing quote
followed by `.format(` whose argument part closes with `)` and trailing
whitespace. -/
def lazyFmtScan (acc : List Char) : List Char → Option (String × String)
  | [] => none
  | c :: cs =>
    if c = '"' ∨ c = '\'' then
      if listStartsWith ".format(".data cs then
        match lazyArgsEnd [] (cs.drop 8) with
        | some args => some (⟨acc⟩, args)
        | none => lazyFmtScan (acc ++ [c]) cs
      else lazyFmtScan (acc ++ [c]) cs
    else lazyFmtScan (acc ++ [c]) cs

/-- Compile `formatRegex` =
`^\s*__xrd_group\s*=\s*["'](.*?)["']\.format\((.*?)\)\s*$`. -/
def matchFormatExpr (line : String) : Option (String × String) :=
  match matchAssignHead "__xrd_group" line with
  | some (q :: l) => if q = '"' ∨ q = '\'' then lazyFmtScan [] l else none
  | _ => none

/-- Argument resolution loop of `resolveFormatExpression`: each argument is
trimmed, unquoted and looked up in the variable table; any miss aborts. -/
def resolveArgs (vars : List (String × String)) : List String → Option (List String)
  | [] => some []
  | a :: rest =>
    match lookupAssoc vars (goTrim (goTrimSpace a) ['"', '\'']) with
    | some v => (resolveArgs vars rest).map (fun vs => v :: vs)
    | none => none

/-- Placeholder substitution loop of `resolveFormatExpression`: replace the
first remaining `{}` by each value in turn. -/
def substPlaceholders (formatStr : String) (vals : List String) : String :=
  vals.foldl (fun r v => goReplaceFirst r "\x7b\x7d" v) formatStr

/-- Go `resolveFormatExpression`. -/
def resolveFormatExpression (line : String) (vars : List (String × String)) :
    String :=
  match matchFormatExpr line with
  | none => ""
  | some (formatStr, argsStr) =>
    match resolveArgs vars (goSplitChar argsStr ',') with
    | none => ""
    | some vals =>
      let result := substPlaceholders formatStr vals
      if goContains result "\x7b\x7d" then "" else result

/-! ### The scan loop -/

/-- Go `parser.PrinterColumn` (no priority attribute, unlike the
generator's). -/
structure ParserPrinterColumn where
  name : String := ""
  type : String := ""
  jsonPath : String := ""
  description : String := ""
deriving DecidableEq

/-- Go `parser.XRDMetadata`. -/
structure XRDMetadata where
  xrKind : String := ""
  xrVersion : String := ""
  group : String := ""
  categories : List String := []
  printerColumns : List ParserPrinterColumn := []
  served : Option Bool := none
  referenceable : Option Bool := none
deriving DecidableEq

/-- Go `parser.ParseResult` (schemas map materialized from the
pointer-valued Go map). -/
structure ParseResult where
  schemas : List (String × Schema)
  primary : Schema
  metadata : XRDMetadata
deriving DecidableEq

/-- Mutable state of the scan loop of `ParseKCLFileWithSchemas`.  Schema
values live in `heap` (modelling Go heap allocation: `currentSchema` and
`currentField` are pointers, and the `table` holds pointers too, so a
docstring closing after a schema header writes through into the already
finalized schema exactly as the Go pointers do). -/
structure ScanState where
  heap : List Schema := []
  table : List (String × Nat) := []
  primary : Option Nat := none
  currentSchema : Option Nat := none
  currentField : Option (Nat × Nat) := none
  inSchema : Bool := false
  inDocstring : Bool := false
  docstringLines : List String := []
  pendingAnnotations : List String := []
  pendingComments : List String := []
  metadata : XRDMetadata := {}
  varTable : List (String × String) := []
deriving DecidableEq

/-- List update at an index (identity out of range). -/
def listModify {α : Type} (l : List α) (i : Nat) (f : α → α) : List α :=
  match l, i with
  | [], _ => []
  | x :: xs, 0 => f x :: xs
  | x :: xs, i + 1 => x :: listModify xs i f

/-- Dereference a schema pointer (Go pointers are always valid here). -/
def heapGet (heap : List Schema) (i : Nat) : Schema :=
  (heap.get? i).getD {}

/-- The variable-recording step of the metadata block (`varAssignRegex`;
falls through to the other metadata rules). -/
def processMetadataVar (st : ScanState) (trimmed : String) : ScanState :=
  match matchVarAssign trimmed with
  | some nv => { st with varTable := mapInsert st.varTable nv.1 nv.2 }
  | none => st

/-- Go helper `parsePrinterColumns`-style parsing done inline in the scan
loop for `__xrd_printer_columns`: `Name:Type:JSONPath[:Description]`. -/
def parsePrinterColumnSpecs (cols : List String) : List ParserPrinterColumn :=
  cols.foldl (fun acc colStr =>
    match goSplitChar colStr ':' with
    | n :: t :: j :: rest =>
      acc ++ [{ name := n, type := t, jsonPath := j,
                description := match rest with | d :: _ => d | [] => "" }]
    | _ => acc) []

/-- The `continue`-ing metadata matchers of the scan loop, in source order;
`none` means fall-through to the comment rules. -/
def processMetadataRules (st : ScanState) (trimmed : String) : Option ScanState :=
  match matchQuotedAssign "__xrd_kind" trimmed with
  | some v => some { st with metadata := { st.metadata with xrKind := v } }
  | none =>
  match matchQuotedAssign "__xrd_version" trimmed with
  | some v => some { st with metadata := { st.metadata with xrVersion := v } }
  | none =>
  match matchQuotedAssign "__xrd_group" trimmed with
  | some v => some { st with metadata := { st.metadata with group := v } }
  | none =>
  if matchGroupExprB trimmed ∧ (matchQuotedAssign "__xrd_group" trimmed).isNone then
    let r := resolveFormatExpression trimmed st.varTable
    some (if r ≠ "" then { st with metadata := { st.metadata with group := r } } else st)
  else
  match matchBracketAssign "__xrd_categories" trimmed with
  | some content =>
    some { st with metadata :=
      { st.metadata with categories := (goSplitChar content ',').map cleanListElem } }
  | none =>
  match matchBoolAssign "__xrd_served" trimmed with
  | some v =>
    some { st with metadata := { st.metadata with served := some (goToLower v = "true") } }
  | none =>
  match matchBoolAssign "__xrd_referenceable" trimmed with
  | some v =>
    some { st with metadata :=
        { st.metadata with referenceable := some (goToLower v = "true") } }
  | none =>
  match matchBracketAssign "__xrd_printer_columns" trimmed with
  | some content =>
    some { st with metadata :=
      { st.metadata with printerColumns :=
          st.metadata.printerColumns ++
            parsePrinterColumnSpecs (splitPrinterColumns content) } }
  | none => none

/-- Comment rule of the scan loop: annotation lines are buffered raw
(trimmed), other comments become pending description lines only inside a
schema. -/
def processComment (st : ScanState) (trimmed : String) : Option ScanState :=
  if goStartsWith trimmed "#" ∧ st.inDocstring = false then
    let commentText := goTrimSpace (goCutStart trimmed "#")
    some (if goStartsWith commentText "@" then
        { st with pendingAnnotations := st.pendingAnnotations ++ [trimmed] }
      else if st.inSchema then
        { st with pendingComments := st.pendingComments ++ [commentText] }
      else st)
  else none

/-- Write a description through the current-field pointer. -/
def setFieldDescription (st : ScanState) (si fi : Nat) (d : String) : ScanState :=
  { st with heap := listModify st.heap si (fun sch =>
      { sch with fields := listModify sch.fields fi (fun f => { f with description := d }) }) }

/-- Docstring-delimiter rule: toggle `inDocstring`; on closing, attach the
joined buffer to the current field, else to a schema without description. -/
def processDocstringToggle (st : ScanState) (trimmed : String) : Option ScanState :=
  if goContains trimmed "\"\"\"" ∨ goContains trimmed "r\"\"\"" then
    if st.inDocstring then
      let st2 :=
        match st.currentField with
        | some p => setFieldDescription st p.1 p.2 (goJoin " " st.docstringLines)
        | none =>
          match st.currentSchema with
          | some si =>
            if (heapGet st.heap si).description = "" then
              { st with heap := listModify st.heap si (fun sch =>
                  { sch with description := goJoin " " st.docstringLines }) }
            else st
          | none => st
      some { st2 with inDocstring := false, docstringLines := [] }
    else some { st with inDocstring := true }
  else none

/-- Collection of raw lines while inside a docstring. -/
def processInDocstring (st : ScanState) (trimmed : String) : Option ScanState :=
  if st.inDocstring then some { st with docstringLines := st.docstringLines ++ [trimmed] }
  else none

/-- Finalize the open schema into the table (keyed by name, silently
overwriting a redefinition) and make it primary. -/
def finalizeCurrent (st : ScanState) : ScanState :=
  match st.currentSchema with
  | some si =>
    { st with table := mapInsert st.table (heapGet st.heap si).name si, primary := some si }
  | none => st

/-- Schema-header rule: finalize any open schema, open a new one, apply a
pending root-marker annotation, clear the pending buffers. -/
def processSchemaHeader (st : ScanState) (line : String) : Option ScanState :=
  match matchSchemaHeader line with
  | some name =>
    let st1 := finalizeCurrent st
    let newSchema : Schema :=
      { name := name
        fields := []
        isXRD := st1.pendingAnnotations.any (fun a => goContains a "@xrd") }
    some { st1 with
           heap := st1.heap ++ [newSchema]
           currentSchema := some st1.heap.length
           pendingAnnotations := []
           pendingComments := []
           inSchema := true }
  | none => none

/-- Field-declaration rule: build the `Field` from the regex captures (with
the comma cleanup of the type and the inline-comment cleanup of the
default), attach pending description and annotations, append. -/
def processField (st : ScanState) (si : Nat) (fm : FieldMatch) : ScanState :=
  let fieldType0 := goTrimSpace fm.rawType
  let fieldType :=
    if goContains fieldType0 "," then
      match goSplitChar fieldType0 ',' with
      | p :: _ => goTrimSpace p
      | [] => fieldType0
    else fieldType0
  let default0 := goTrimSpace fm.rawDefault
  let defaultValue :=
    if default0 ≠ "" ∧ goContains default0 "#" then
      match goSplitTwo default0 '#' with
      | p :: _ => goTrimSpace p
      | [] => default0
    else default0
  let field : Field := applyValidationAnnotations
    { name := fm.name
      type := fieldType
      required := !fm.optMark
      default := defaultValue
      description := if st.pendingComments ≠ [] then goJoin "\n" st.pendingComments else "" }
    st.pendingAnnotations
  let fi := (heapGet st.heap si).fields.length
  { st with
    heap := listModify st.heap si (fun sch => { sch with fields := sch.fields ++ [field] })
    currentField := some (si, fi)
    pendingComments := []
    pendingAnnotations := [] }

/-- Indentation-drop rule followed by the field rule (neither `continue`s
before the other in the Go loop). -/
def processTail (st : ScanState) (line : String) (trimmed : String) : ScanState :=
  let st1 :=
    if st.inSchema ∧ goStartsWith line " " = false ∧ goStartsWith line "\t" = false ∧
        trimmed ≠ "" then
      { st with inSchema := false, currentField := none }
    else st
  match st1.currentSchema with
  | some si =>
    if st1.inSchema then
      match matchFieldLine line with
      | some fm => processField st1 si fm
      | none => st1
    else st1
  | none => st1

/-- One iteration of the scan loop of `ParseKCLFileWithSchemas`, in the
source's rule order: blank skip, metadata block (outside schemas), comment
buffering, docstring handling, schema header, indentation drop, field. -/
def processLine (st : ScanState) (line : String) : ScanState :=
  let trimmed := goTrimSpace line
  if trimmed = "" ∧ st.inDocstring = false then
    (if st.inSchema then st else { st with pendingComments := [] })
  else
    let st1 := if st.inSchema then st else processMetadataVar st trimmed
    match (if st1.inSchema then none else processMetadataRules st1 trimmed) with
    | some st2 => st2
    | none =>
    match processComment st1 trimmed with
    | some st2 => st2
    | none =>
    match processDocstringToggle st1 trimmed with
    | some st2 => st2
    | none =>
    match processInDocstring st1 trimmed with
    | some st2 => st2
    | none =>
    match processSchemaHeader st1 line with
    | some st2 => st2
    | none => processTail st1 line trimmed

/-- Go `ParseKCLFileWithSchemas` on a sequence of input lines: run the scan
loop, finalize the last schema, and fail only when no schema was found.
The optional KCL-runtime metadata merge (`evaluateMetadataWithKCL`) is an
external collaborator outside the modelled core. -/
def ParseKCLLines (lines : List String) : Except String ParseResult :=
  let st := lines.foldl processLine {}
  let st1 := finalizeCurrent st
  match st1.primary with
  | none => Except.error "no schema found in file"
  | some pi =>
    Except.ok { schemas := st1.table.map (fun kv => (kv.1, heapGet st1.heap kv.2)),
                primary := heapGet st1.heap pi,
                metadata := st1.metadata }

/-! ## Claim C6 -/

/-- Dereference of the schema appended by a header. -/
theorem heapGet_append (heap : List Schema) (s : Schema) :
    heapGet (heap ++ [s]) heap.length = s := by
  induction heap with
  | nil => rfl
  | cons x xs ih => simp [heapGet, List.get?]

/-- Claim C6 counterexample (status: corrected).  The claim says a
metadata assignment immediately after a schema body still takes effect on
the same pass.  Scanning a schema body followed by the non-indented line
`__xrd_version = "v9"` leaves the metadata version empty: the line ends the
schema (it is not parsed as a field — the schema keeps exactly its one
field) but the metadata rules never see it, because the in-schema flag is
cleared only after the metadata block has already been passed for that
line. -/
theorem claim_C6_counterexample :
    (match ParseKCLLines ["schema A:", "    x: str", "__xrd_version = \"v9\""] with
     | Except.ok r => some (r.metadata.xrVersion,
         (lookupAssoc r.schemas "A").map
           (fun (s : Schema) => s.fields.map (fun (f : Field) => (f.name, f.type))))
     | Except.error _ => none) =
      some ("", some [("x", "str")]) ∧
    ("" : String) ≠ "v9" :=
  ⟨rfl, by decide⟩

/-- Claim C6 as amended (status: corrected).  While the scanner is in the
in-schema state with a non-blank, non-comment, non-docstring input line:
(a) if the line is not a schema header and not indented, the scanner only
exits the in-schema state and forgets the current field — the line is not
consumed as a field, and no metadata rule fires on it (the whole state is
otherwise unchanged; metadata assignments resume on subsequent lines);
(b) if the line is a schema header it takes effect imm­ediately: the scanner
stays in-schema with the newly named schema open. -/
theorem claim_C6_schema_end_line (st : ScanState) (line : String) :
    ((st.inSchema = true) → (st.inDocstring = false) →
      goTrimSpace line ≠ "" →
      goStartsWith (goTrimSpace line) "#" = false →
      goContains (goTrimSpace line) "\"\"\"" = false →
      goContains (goTrimSpace line) "r\"\"\"" = false →
      matchSchemaHeader line = none →
      goStartsWith line " " = false →
      goStartsWith line "\t" = false →
      processLine st line = { st with inSchema := false, currentField := none }) ∧
    ((st.inSchema = true) → (st.inDocstring = false) →
      goTrimSpace line ≠ "" →
      goStartsWith (goTrimSpace line) "#" = false →
      goContains (goTrimSpace line) "\"\"\"" = false →
      goContains (goTrimSpace line) "r\"\"\"" = false →
      ∀ name, matchSchemaHeader line = some name →
        (processLine st line).inSchema = true ∧
        ((processLine st line).currentSchema.map
          (fun i => (heapGet (processLine st line).heap i).name)) = some name) := by
  constructor
  · intro hin hdoc htr hcom hdq hdr hhdr hsp htab
    simp only [processLine, hin, hdoc, htr, hcom, hdq, hdr, hhdr, hsp, htab,
      processComment, processDocstringToggle, processInDocstring, processSchemaHeader,
      processTail, if_true, if_false, Bool.false_eq_true, and_false, false_and, if_neg,
      not_false_eq_true, ite_true, ite_false, ne_eq, not_true_eq_false]
    cases hcs : st.currentSchema with
    | none => simp
    | some si => simp
  · intro hin hdoc htr hcom hdq hdr name hname
    have hstep : processLine st line =
        { finalizeCurrent st with
          heap := (finalizeCurrent st).heap ++
            [{ name := name, fields := [],
               isXRD := (finalizeCurrent st).pendingAnnotations.any
                 (fun a => goContains a "@xrd") }]
          currentSchema := some (finalizeCurrent st).heap.length
          pendingAnnotations := []
          pendingComments := []
          inSchema := true } := by
      simp only [processLine, processComment, processDocstringToggle, processInDocstring,
        processSchemaHeader, hin, hdoc, htr, hcom, hdq, hdr, hname, if_true, if_false,
        Bool.false_eq_true, and_false, false_and, if_neg, not_false_eq_true, ite_true,
        ite_false, ne_eq, not_true_eq_false]
      simp
    rw [hstep]
    exact ⟨rfl, by simp [heapGet_append]⟩

/-- Concrete in-schema scanner state for the witness of claim C6. -/
def c6State : ScanState :=
  { heap := [{ name := "A", fields := [{ name := "x", type := "str" }] }]
    currentSchema := some 0
    inSchema := true }

/-- Witness for claim C6: both parts of the amended theorem at concrete
state and lines. -/
theorem claim_C6_witness :
    (c6State.inSchema = true) ∧
    (processLine c6State "__xrd_version = \"v9\"" =
      { c6State with inSchema := false, currentField := none }) ∧
    ((processLine c6State "schema B:").inSchema = true ∧
      ((processLine c6State "schema B:").currentSchema.map
        (fun i => (heapGet (processLine c6State "schema B:").heap i).name)) = some "B") :=
  ⟨rfl,
   (claim_C6_schema_end_line c6State "__xrd_version = \"v9\"").1 rfl rfl (by decide)
     (by decide) (by decide) (by decide) rfl (by decide) (by decide),
   (claim_C6_schema_end_line c6State "schema B:").2 rfl rfl (by decide) (by decide)
     (by decide) (by decide) "B" rfl⟩

/-! ## Claim C7 -/

/-- Character data of a string concatenation. -/
theorem goStr_data_append (a b : String) : (a ++ b).data = a.data ++ b.data := rfl

/-- Strings with equal character data are equal. -/
theorem strEq_of_data {a b : String} (h : a.data = b.data) : a = b := by
  cases a; cases b; cases h; rfl

/-- String concatenation is associative. -/
theorem goStr_append_assoc (a b c : String) : (a ++ b) ++ c = a ++ (b ++ c) :=
  strEq_of_data (by simp [goStr_data_append])

/-- Characters that are inert for both splitters: not a quote, not a
backslash, not whitespace (commas are allowed and are the interesting
case). -/
def plainChar (c : Char) : Bool :=
  !(c == '"' || c == '\'' || c == '\\') && !goIsSpace c

/-- Unpacking of the inert-character predicate. -/
theorem plainChar_spec (c : Char) (h : plainChar c = true) :
    c ≠ '"' ∧ c ≠ '\'' ∧ c ≠ '\\' ∧ goIsSpace c = false := by
  refine ⟨?_, ?_, ?_, ?_⟩
  · intro e; subst e; exact absurd h (by decide)
  · intro e; subst e; exact absurd h (by decide)
  · intro e; subst e; exact absurd h (by decide)
  · cases hgs : goIsSpace c with
    | false => rfl
    | true =>
      unfold plainChar at h
      rw [hgs] at h
      simp at h

/-- Left trim is the identity on a list with no trimmable characters. -/
theorem trimLeftP_of_none (p : Char → Bool) (l : List Char)
    (h : ∀ c ∈ l, p c = false) : trimLeftP p l = l := by
  cases l with
  | nil => rfl
  | cons c cs => simp [trimLeftP, h c (by simp)]

/-- Both-ends trim is the identity on a list with no trimmable characters. -/
theorem trimBothP_of_none (p : Char → Bool) (l : List Char)
    (h : ∀ c ∈ l, p c = false) : trimBothP p l = l := by
  unfold trimBothP
  rw [trimLeftP_of_none p l h,
    trimLeftP_of_none p l.reverse (fun c hc => h c (List.mem_reverse.mp hc)),
    List.reverse_reverse]

/-- The element cleanup of both pipelines is the identity on a non-spacey,
quote-free string. -/
theorem cleanup_plain (l : List Char) (h : ∀ c ∈ l, plainChar c = true) :
    goTrim (goTrimSpace ⟨l⟩) ['"', '\''] = (⟨l⟩ : String) := by
  have hsp : ∀ c ∈ l, goIsSpace c = false := fun c hc => (plainChar_spec c (h c hc)).2.2.2
  have hq : ∀ c ∈ l, (['"', '\''].contains c) = false := by
    intro c hc
    have hs := plainChar_spec c (h c hc)
    have h1 : (c == '"') = false := by
      cases he : (c == '"') with
      | false => rfl
      | true => exact absurd (beq_iff_eq.mp he) hs.1
    have h2 : (c == '\'') = false := by
      cases he : (c == '\'') with
      | false => rfl
      | true => exact absurd (beq_iff_eq.mp he) hs.2.1
    simp [List.contains, h1, h2]
    exact ⟨hs.1, hs.2.1⟩
  unfold goTrimSpace goTrim
  rw [trimBothP_of_none _ l hsp, trimBothP_of_none _ l hq]

/-- In-quote traversal of `splitPrinterColumnsLoop` over inert characters:
they are all appended to the current piece and the scan state is
preserved (with a non-backslash lookbehind). -/
theorem spLoop_inQuote_plain (l : List Char) (h : ∀ c ∈ l, plainChar c = true) :
    ∀ (rest : List Char) (prev : Option Char) (cur : List Char) (acc : List String),
      notEscaped prev = true →
      ∃ prev2, notEscaped prev2 = true ∧
        splitPrinterColumnsLoop (l ++ rest) prev true '"' cur acc =
          splitPrinterColumnsLoop rest prev2 true '"' (cur ++ l) acc := by
  induction l with
  | nil => intro rest prev cur acc hprev; exact ⟨prev, hprev, by simp⟩
  | cons c cs ih =>
    intro rest prev cur acc hprev
    have hc := plainChar_spec c (h c (by simp))
    have hcq : ¬ (c = '"' ∨ c = '\'') := by
      rintro (h1 | h1)
      · exact hc.1 h1
      · exact hc.2.1 h1
    have hcb : c ≠ '\\' := hc.2.2.1
    have step : splitPrinterColumnsLoop ((c :: cs) ++ rest) prev true '"' cur acc =
        splitPrinterColumnsLoop (cs ++ rest) (some c) true '"' (cur ++ [c]) acc := by
      simp only [List.cons_append, splitPrinterColumnsLoop]
      rw [if_neg (fun hh => hcq hh.1), if_neg (by simp)]
      rfl
    rw [step]
    obtain ⟨p2, hp2, heq⟩ := ih (fun d hd => h d (by simp [hd])) rest (some c) (cur ++ [c]) acc
      (by simp [notEscaped, hcb])
    exact ⟨p2, hp2, by rw [heq, List.append_assoc]; rfl⟩

/-- Length of a naive character split: one more than the separator count. -/
theorem splitCharL_length (sep : Char) (l : List Char) :
    (splitCharL sep l).length = l.count sep + 1 := by
  induction l with
  | nil => rfl
  | cons c cs ih =>
    by_cases hc : c = sep
    · simp [splitCharL, hc, ih, List.count_cons]
    · have hstep : splitCharL sep (c :: cs) =
          (match splitCharL sep cs with
           | [] => [[c]]
           | p :: ps => (c :: p) :: ps) := by
        simp [splitCharL, hc]
      rw [hstep]
      have hcount : (c :: cs).count sep = cs.count sep :=
        List.count_cons_of_ne (fun e => hc e.symm) cs
      cases hs : splitCharL sep cs with
      | nil => rw [hs] at ih; simp at ih
      | cons p ps =>
        rw [hs] at ih
        simp only [List.length_cons] at ih ⊢
        rw [hcount]
        omega

/-- Claim C7 counterexample (status: corrected).  The claim says commas
inside quoted list elements are never treated as separators for any list
argument.  The `@enum` pipeline splits the argument text of
`@enum(["a,b", "c"])` at every comma, yielding three elements `a`, `b`, `c`
instead of the two quoted ones. -/
theorem claim_C7_counterexample :
    (applyValidationAnnotations { name := "f" } ["# @enum([\"a,b\", \"c\"])"]).enum =
      ["a", "b", "c"] ∧
    (["a", "b", "c"] : List String) ≠ ["a,b", "c"] :=
  ⟨rfl, by decide⟩

/-- Claim C7 as amended (status: corrected).  Only the printer-columns
splitter is quote-aware: on an argument text holding two non-empty quoted
elements of inert characters, `splitPrinterColumns` returns exactly the two
elements even when they contain commas, while the naive comma split used for
`@enum`, `@listMapKeys` and `__xrd_categories` produces one piece per comma
— `2 + (number of commas inside the quoted elements)` pieces, so any quoted
comma is treated as a separator there. -/
theorem claim_C7_quote_aware_vs_naive (e₁ e₂ : String)
    (h1 : e₁ ≠ "") (h2 : e₂ ≠ "")
    (hp1 : ∀ c ∈ e₁.data, plainChar c = true)
    (hp2 : ∀ c ∈ e₂.data, plainChar c = true) :
    splitPrinterColumns ("\"" ++ e₁ ++ "\",\"" ++ e₂ ++ "\"") = [e₁, e₂] ∧
    ((goSplitChar ("\"" ++ e₁ ++ "\",\"" ++ e₂ ++ "\"") ',').map cleanListElem).length =
      2 + e₁.data.count ',' + e₂.data.count ',' := by
  have hdata : ("\"" ++ e₁ ++ "\",\"" ++ e₂ ++ "\"").data =
      '"' :: (e₁.data ++ ('"' :: ',' :: '"' :: (e₂.data ++ ['"']))) := by
    have d1 : ("\"" : String).data = ['"'] := rfl
    have d2 : ("\",\"" : String).data = ['"', ',', '"'] := rfl
    simp [goStr_data_append, d1, d2]
  constructor
  · unfold splitPrinterColumns
    rw [hdata]
    have step1 : splitPrinterColumnsLoop
        ('"' :: (e₁.data ++ ('"' :: ',' :: '"' :: (e₂.data ++ ['"'])))) none false
        (Char.ofNat 0) [] [] =
        splitPrinterColumnsLoop (e₁.data ++ ('"' :: ',' :: '"' :: (e₂.data ++ ['"'])))
          (some '"') true '"' [] [] := by
      simp [splitPrinterColumnsLoop, notEscaped]
    rw [step1]
    obtain ⟨p2, hp2', heq⟩ := spLoop_inQuote_plain e₁.data hp1
      ('"' :: ',' :: '"' :: (e₂.data ++ ['"'])) (some '"') [] [] (by simp [notEscaped])
    rw [heq]
    have step2 : splitPrinterColumnsLoop ('"' :: ',' :: '"' :: (e₂.data ++ ['"'])) p2 true '"'
        ([] ++ e₁.data) [] =
        splitPrinterColumnsLoop (',' :: '"' :: (e₂.data ++ ['"'])) (some '"') false
          (Char.ofNat 0) e₁.data [] := by
      simp [splitPrinterColumnsLoop, hp2']
    rw [step2]
    have hclean1 : goTrim (goTrimSpace ⟨e₁.data⟩) ['"', '\''] = e₁ := cleanup_plain e₁.data hp1
    have step3 : splitPrinterColumnsLoop (',' :: '"' :: (e₂.data ++ ['"'])) (some '"') false
        (Char.ofNat 0) e₁.data [] =
        splitPrinterColumnsLoop ('"' :: (e₂.data ++ ['"'])) (some ',') false
          (Char.ofNat 0) [] [e₁] := by
      simp only [splitPrinterColumnsLoop]
      rw [if_neg (by simp), if_pos (by simp)]
      rw [hclean1]
      rw [if_pos h1]
      rfl
    rw [step3]
    have step4 : splitPrinterColumnsLoop ('"' :: (e₂.data ++ ['"'])) (some ',') false
        (Char.ofNat 0) [] [e₁] =
        splitPrinterColumnsLoop (e₂.data ++ ['"']) (some '"') true '"' [] [e₁] := by
      simp only [splitPrinterColumnsLoop]
      rw [if_pos ⟨Or.inl trivial, rfl⟩, if_neg (by decide)]
    rw [step4]
    obtain ⟨p3, hp3', heq2⟩ := spLoop_inQuote_plain e₂.data hp2 ['"'] (some '"') [] [e₁]
      (by simp [notEscaped])
    rw [heq2]
    have hclean2 : goTrim (goTrimSpace ⟨e₂.data⟩) ['"', '\''] = e₂ := cleanup_plain e₂.data hp2
    have step5 : splitPrinterColumnsLoop ['"'] p3 true '"' ([] ++ e₂.data) [e₁] =
        splitPrinterColumnsLoop [] (some '"') false (Char.ofNat 0) e₂.data [e₁] := by
      simp only [splitPrinterColumnsLoop]
      rw [if_pos ⟨Or.inl trivial, hp3'⟩]
      rfl
    rw [step5]
    simp only [splitPrinterColumnsLoop]
    rw [hclean2, if_pos h2]
    rfl
  · unfold goSplitChar
    simp only [List.length_map]
    rw [hdata, splitCharL_length]
    simp [List.count_cons, List.count_append]
    omega

/-- Witness for claim C7: the theorem applied at the elements "a,b" and "c"
(the quoted element carries a comma, so the naive split yields three pieces
while the quote-aware splitter yields two). -/
theorem claim_C7_witness :
    splitPrinterColumns ("\"" ++ "a,b" ++ "\",\"" ++ "c" ++ "\"") = ["a,b", "c"] ∧
    ((goSplitChar ("\"" ++ "a,b" ++ "\",\"" ++ "c" ++ "\"") ',').map cleanListElem).length =
      2 + ("a,b" : String).data.count ',' + ("c" : String).data.count ',' :=
  claim_C7_quote_aware_vs_naive "a,b" "c" (by decide) (by decide) (by decide) (by decide)

/-! ## Claim C8 -/

/-- A string without placeholder braces. -/
def braceFreeB (s : String) : Bool :=
  s.data.all (fun c => c != '\x7b' && c != '\x7d')

/-- Unpacking of `braceFreeB`. -/
theorem braceFree_spec (s : String) (h : braceFreeB s = true) :
    ∀ c ∈ s.data, c ≠ '\x7b' ∧ c ≠ '\x7d' := by
  intro c hc
  have hx := List.all_eq_true.mp h c hc
  simp only [Bool.and_eq_true, bne_iff_ne] at hx
  exact hx

/-- Format string obtained by joining pieces with `{}` placeholders. -/
def joinPlaceholders : List String → String
  | [] => ""
  | [p] => p
  | p :: ps => p ++ "\x7b\x7d" ++ joinPlaceholders ps

/-- Reference substitution: pieces interleaved with the values in order. -/
def interleavePieces : List String → List String → String
  | [], _ => ""
  | p :: _, [] => p
  | p :: ps, v :: vs => p ++ v ++ interleavePieces ps vs

/-- No occurrence of the placeholder starts inside a brace-free prefix. -/
theorem indexOfSub_mid (p rest : List Char) (hp : ∀ c ∈ p, c ≠ '\x7b') :
    ∀ i, indexOfSubAux ['\x7b', '\x7d'] (p ++ '\x7b' :: '\x7d' :: rest) i =
      some (i + p.length) := by
  induction p with
  | nil => intro i; simp [indexOfSubAux, listStartsWith]
  | cons c cs ih =>
    intro i
    have hc : ('\x7b' == c) = false := beq_eq_false_iff_ne.mpr (Ne.symm (hp c (by simp)))
    simp only [List.cons_append, List.append_eq, indexOfSubAux, listStartsWith, hc,
      Bool.false_and, Bool.false_eq_true, if_false, ite_false]
    rw [ih (fun d hd => hp d (by simp [hd])) (i + 1)]
    simp only [Option.some.injEq, List.length_cons]
    omega

/-- No occurrence of the placeholder exists in a brace-free list. -/
theorem indexOfSub_none (l : List Char) (hl : ∀ c ∈ l, c ≠ '\x7b') :
    ∀ i, indexOfSubAux ['\x7b', '\x7d'] l i = none := by
  induction l with
  | nil => intro i; rfl
  | cons c cs ih =>
    intro i
    have hc : ('\x7b' == c) = false := beq_eq_false_iff_ne.mpr (Ne.symm (hl c (by simp)))
    simp only [indexOfSubAux, listStartsWith, hc, Bool.false_and, Bool.false_eq_true,
      if_false, ite_false]
    exact ih (fun d hd => hl d (by simp [hd])) (i + 1)

/-- A brace-free string does not contain the placeholder. -/
theorem goContains_braceFree (s : String) (h : braceFreeB s = true) :
    goContains s "\x7b\x7d" = false := by
  unfold goContains
  rw [show ("\x7b\x7d" : String).data = ['\x7b', '\x7d'] from rfl,
    indexOfSub_none s.data (fun c hc => (braceFree_spec s h c hc).1) 0]
  rfl

/-- Replacing the first placeholder after a brace-free prefix substitutes
exactly there. -/
theorem replaceFirst_after (p rest v : String) (hp : ∀ c ∈ p.data, c ≠ '\x7b') :
    goReplaceFirst (p ++ "\x7b\x7d" ++ rest) "\x7b\x7d" v = p ++ v ++ rest := by
  unfold goReplaceFirst replaceFirstL
  have hd : (p ++ "\x7b\x7d" ++ rest).data = p.data ++ '\x7b' :: '\x7d' :: rest.data := by
    simp [goStr_data_append, show ("\x7b\x7d" : String).data = ['\x7b', '\x7d'] from rfl]
  rw [hd, indexOfSub_mid p.data rest.data hp 0]
  have htake : List.take (0 + p.data.length) (p.data ++ '\x7b' :: '\x7d' :: rest.data) =
      p.data := by
    rw [Nat.zero_add]
    exact List.take_left p.data _
  have hassoc : p.data ++ '\x7b' :: '\x7d' :: rest.data =
      (p.data ++ ['\x7b', '\x7d']) ++ rest.data := by simp
  have hdrop : List.drop (0 + p.data.length + ("\x7b\x7d" : String).data.length)
      (p.data ++ '\x7b' :: '\x7d' :: rest.data) = rest.data := by
    rw [hassoc]
    have hlen : 0 + p.data.length + ("\x7b\x7d" : String).data.length =
        (p.data ++ ['\x7b', '\x7d']).length := by simp
    rw [hlen]
    exact List.drop_left _ _
  show String.mk (List.take (0 + p.data.length) (p.data ++ '\x7b' :: '\x7d' :: rest.data) ++
      v.data ++ List.drop (0 + p.data.length + ("\x7b\x7d" : String).data.length)
        (p.data ++ '\x7b' :: '\x7d' :: rest.data)) = p ++ v ++ rest
  rw [htake, hdrop]
  rfl

/-- The fold of first-placeholder replacements equals the interleaving of
pieces and values, for brace-free pieces and values and matching counts,
relative to an already-substituted brace-free prefix. -/
theorem substAux : ∀ (vals pieces : List String) (pre : String),
    (∀ c ∈ pre.data, c ≠ '\x7b') → (∀ p ∈ pieces, braceFreeB p = true) →
    (∀ v ∈ vals, braceFreeB v = true) → vals.length + 1 = pieces.length →
    substPlaceholders (pre ++ joinPlaceholders pieces) vals =
      pre ++ interleavePieces pieces vals := by
  intro vals
  induction vals with
  | nil =>
    intro pieces pre hpre hp hv hlen
    match pieces, hlen with
    | [p], _ => rfl
  | cons v vs ih =>
    intro pieces pre hpre hp hv hlen
    match pieces, hlen with
    | p :: q :: qs, hlen =>
      have hjoin : joinPlaceholders (p :: q :: qs) =
          p ++ "\x7b\x7d" ++ joinPlaceholders (q :: qs) := rfl
      have hstep : substPlaceholders (pre ++ joinPlaceholders (p :: q :: qs)) (v :: vs) =
          substPlaceholders
            (goReplaceFirst (pre ++ joinPlaceholders (p :: q :: qs)) "\x7b\x7d" v) vs := rfl
      rw [hstep, hjoin]
      have hre : pre ++ (p ++ "\x7b\x7d" ++ joinPlaceholders (q :: qs)) =
          (pre ++ p) ++ "\x7b\x7d" ++ joinPlaceholders (q :: qs) :=
        strEq_of_data (by simp [goStr_data_append, List.append_assoc])
      have hprep : ∀ c ∈ (pre ++ p).data, c ≠ '\x7b' := by
        intro c hc
        rw [goStr_data_append] at hc
        rcases List.mem_append.mp hc with h1 | h1
        · exact hpre c h1
        · exact (braceFree_spec p (hp p (by simp)) c h1).1
      rw [hre]
      rw [replaceFirst_after (pre ++ p) (joinPlaceholders (q :: qs)) v hprep]
      have hprev : ∀ c ∈ ((pre ++ p) ++ v).data, c ≠ '\x7b' := by
        intro c hc
        rw [goStr_data_append] at hc
        rcases List.mem_append.mp hc with h1 | h1
        · exact hprep c h1
        · exact (braceFree_spec v (hv v (by simp)) c h1).1
      rw [ih (q :: qs) ((pre ++ p) ++ v) hprev
        (fun x hx => hp x (by simp [hx])) (fun x hx => hv x (by simp [hx]))
        (by simp only [List.length_cons] at hlen ⊢; omega)]
      rw [show interleavePieces (p :: q :: qs) (v :: vs) =
          p ++ v ++ interleavePieces (q :: qs) vs from rfl]
      apply strEq_of_data
      simp [goStr_data_append, List.append_assoc]

/-- The interleaving of brace-free pieces and values is brace-free. -/
theorem interleave_braceFree : ∀ (pieces vals : List String),
    (∀ p ∈ pieces, braceFreeB p = true) → (∀ v ∈ vals, braceFreeB v = true) →
    braceFreeB (interleavePieces pieces vals) = true := by
  intro pieces
  induction pieces with
  | nil => intro vals _ _; rfl
  | cons p ps ih =>
    intro vals hp hv
    cases vals with
    | nil => exact hp p (by simp)
    | cons v vs =>
      show braceFreeB (p ++ v ++ interleavePieces ps vs) = true
      unfold braceFreeB
      rw [goStr_data_append, goStr_data_append, List.all_append, List.all_append]
      simp only [Bool.and_eq_true]
      exact ⟨⟨hp p (by simp), hv v (by simp)⟩,
        ih vs (fun x hx => hp x (by simp [hx])) (fun x hx => hv x (by simp [hx]))⟩

/-- Failure of the argument-resolution loop when any argument is unbound. -/
theorem resolveArgs_none (vars : List (String × String)) :
    ∀ (args : List String),
      (∃ arg ∈ args, lookupAssoc vars (goTrim (goTrimSpace arg) ['"', '\'']) = none) →
      resolveArgs vars args = none := by
  intro args
  induction args with
  | nil => rintro ⟨a, ha, _⟩; exact absurd ha (by simp)
  | cons a rest ih =>
    rintro ⟨b, hb, hlk⟩
    unfold resolveArgs
    rcases List.mem_cons.mp hb with h1 | h1
    · subst h1; rw [hlk]
    · cases hla : lookupAssoc vars (goTrim (goTrimSpace a) ['"', '\'']) with
      | none => rfl
      | some v => rw [ih ⟨b, h1, hlk⟩]; rfl

/-- Claim C8 counterexample (status: corrected).  The claim says resolution
substitutes left-to-right whenever all arguments resolve and cover all
placeholders.  With `_a` bound to the two-character string consisting of the
placeholder braces, the single argument of
`__xrd_group = "{}".format(_a)` resolves and covers the single placeholder,
yet the resolver returns the empty (unresolved) result because the
substituted text still contains a placeholder token. -/
theorem claim_C8_counterexample :
    resolveFormatExpression "__xrd_group = \"\x7b\x7d\".format(_a)"
      [("_a", "\x7b\x7d")] = "" ∧
    lookupAssoc [("_a", "\x7b\x7d")]
      (goTrim (goTrimSpace "_a") ['"', '\'']) = some "\x7b\x7d" ∧
    ("" : String) ≠ "\x7b\x7d" :=
  ⟨rfl, rfl, by decide⟩

/-- Claim C8 as amended (status: corrected).  Resolution fails closed —
returning the empty string — when the line does not parse as a format
expression, and when any comma-separated argument is unbound in the variable
table; the resolver never returns a partial substitution: a non-empty result
is exactly the full left-to-right substitution of the format string's
placeholders with no placeholder token remaining (so a resolved value that
itself contains a placeholder also makes resolution fail closed, even when
the arguments cover all placeholders); and on brace-free pieces and values
with one more piece than values, the substitution fold is exactly the
interleaving of pieces and values. -/
theorem claim_C8_fail_closed_resolution :
    (∀ (line : String) (vars : List (String × String)),
      matchFormatExpr line = none → resolveFormatExpression line vars = "") ∧
    (∀ (line : String) (vars : List (String × String)) (f a : String),
      matchFormatExpr line = some (f, a) →
      (∃ arg ∈ goSplitChar a ',',
        lookupAssoc vars (goTrim (goTrimSpace arg) ['"', '\'']) = none) →
      resolveFormatExpression line vars = "") ∧
    (∀ (line : String) (vars : List (String × String)) (out : String),
      resolveFormatExpression line vars = out → out ≠ "" →
      ∃ f a vals, matchFormatExpr line = some (f, a) ∧
        resolveArgs vars (goSplitChar a ',') = some vals ∧
        out = substPlaceholders f vals ∧
        goContains out "\x7b\x7d" = false) ∧
    (∀ (pieces vals : List String),
      (∀ p ∈ pieces, braceFreeB p = true) → (∀ v ∈ vals, braceFreeB v = true) →
      vals.length + 1 = pieces.length →
      substPlaceholders (joinPlaceholders pieces) vals = interleavePieces pieces vals ∧
        goContains (interleavePieces pieces vals) "\x7b\x7d" = false) := by
  refine ⟨?_, ?_, ?_, ?_⟩
  · intro line vars hm
    unfold resolveFormatExpression
    rw [hm]
  · intro line vars f a hm hex
    simp only [resolveFormatExpression, hm, resolveArgs_none vars (goSplitChar a ',') hex]
  · intro line vars out hres hne
    unfold resolveFormatExpression at hres
    split at hres
    · exact absurd hres.symm hne
    · rename_i f a hm
      split at hres
      · exact absurd hres.symm hne
      · rename_i vals hr
        by_cases hcont : goContains (substPlaceholders f vals) "\x7b\x7d" = true
        · rw [if_pos hcont] at hres; exact absurd hres.symm hne
        · rw [if_neg hcont] at hres
          refine ⟨f, a, vals, hm, hr, hres.symm, ?_⟩
          rw [← hres]
          cases h2 : goContains (substPlaceholders f vals) "\x7b\x7d" with
          | false => rfl
          | true => exact absurd h2 hcont
  · intro pieces vals hp hv hlen
    have hpre : ∀ c ∈ ("" : String).data, c ≠ '\x7b' := by intro c hc; exact absurd hc (by simp)
    have h1 := substAux vals pieces "" hpre hp hv hlen
    have hemp : ∀ s : String, "" ++ s = s := by
      intro s; cases s; rfl
    rw [hemp, hemp] at h1
    exact ⟨h1, goContains_braceFree _ (interleave_braceFree pieces vals hp hv)⟩

/-- Witness for claim C8: the fail-closed part at a non-format line, and the
substitution part at the format string of the repository's own test
(`"{}.{}".format(_xrSubgroup, _platformGroup)` bound to aws/example.org). -/
theorem claim_C8_witness :
    (matchFormatExpr "schema A:" = none ∧
      resolveFormatExpression "schema A:" [] = "") ∧
    ((∀ p ∈ ["", ".", ""], braceFreeB p = true) ∧
      (∀ v ∈ ["aws", "example.org"], braceFreeB v = true) ∧
      (["aws", "example.org"].length + 1 = (["", ".", ""] : List String).length) ∧
      substPlaceholders (joinPlaceholders ["", ".", ""]) ["aws", "example.org"] =
        interleavePieces ["", ".", ""] ["aws", "example.org"]) :=
  ⟨⟨rfl, claim_C8_fail_closed_resolution.1 "schema A:" [] rfl⟩,
   by decide, by decide, by decide,
   (claim_C8_fail_closed_resolution.2.2.2 ["", ".", ""] ["aws", "example.org"]
     (by decide) (by decide) (by decide)).1⟩

end Kcl2Xrd
